import Mathlib

/-!
Verification development for the vue-flow graph store engine.

The definitions below are a shallow embedding of the store's state,
getters and actions (`useActions` / `useGetters`): nodes, edges, the
connection lookup index, the connection-gesture fields, and the mutation
API (`setNodes`, `setEdges`, `setElements`, `removeNodes`,
`updateNodeDimensions`, selection handlers, `startConnection` /
`endConnection`, `toObject` / `fromObject`).  Machine numbers that only
ever carry coordinates or sizes are modelled as `Int` / `Nat`; the one
place where a `NaN` sentinel matters (`connectionPosition`) uses an
explicit `NumVal` type.  Actions return the new state together with the
ordered list of events (change batches and errors) they trigger.
-/

/-- A JavaScript number as used for the connection position: either an
actual value or the `NaN` sentinel that `endConnection` writes. -/
inductive NumVal where
  | nan : NumVal
  | num : Int → NumVal
deriving DecidableEq

/-- A point in flow coordinates. -/
structure XYPos where
  x : Int
  y : Int
deriving DecidableEq

/-- An absolute position including the z layer (a node's `computedPosition`). -/
structure XYZPos where
  x : Int
  y : Int
  z : Int
deriving DecidableEq

/-- Measured width/height of a rendered node. -/
structure Dimensions where
  width : Nat
  height : Nat
deriving DecidableEq

/-- A measured rectangle, as produced for handle bounds. -/
structure Rect4 where
  x : Int
  y : Int
  width : Nat
  height : Nat
deriving DecidableEq

/-- Per-node measured handle geometry (`node.handleBounds`), with the
`.source` and `.target` handle groups. -/
structure NodeHandleBounds where
  sourceBounds : Option (List Rect4)
  targetBounds : Option (List Rect4)
deriving DecidableEq

/-- The role of a handle. -/
inductive HandleType where
  | source : HandleType
  | target : HandleType
deriving DecidableEq

/-- A graph node as kept in the store's canonical collection
(`GraphNode`): user-facing fields plus the derived/internal fields that
`toObject` strips. -/
structure GNode where
  id : String
  position : XYPos
  parentNode : Option String
  type : Option String
  data : Option String
  deletable : Option Bool
  hidden : Option Bool
  selected : Option Bool
  computedPosition : XYZPos
  dimensions : Dimensions
  handleBounds : NodeHandleBounds
  initialized : Bool
  isParent : Bool
  resizing : Bool
  dragging : Bool
deriving DecidableEq

/-- A graph edge as kept in the store's canonical collection
(`GraphEdge`), including the cached `sourceNode` / `targetNode`
denormalisation that `setEdges` fills in. -/
structure GEdge where
  id : String
  source : String
  target : String
  sourceHandle : Option String
  targetHandle : Option String
  deletable : Option Bool
  hidden : Option Bool
  selected : Option Bool
  data : Option String
  sourceNode : Option GNode
  targetNode : Option GNode
deriving DecidableEq

/-- A loose node record as accepted by `setNodes` / produced by
`toObject` for the `nodes` array: the user-facing fields only, with
optional position.  A field holding `none` models a key that is absent
from the JSON object. -/
structure NodeInput where
  id : String
  position : Option XYPos
  parentNode : Option String
  type : Option String
  data : Option String
  deletable : Option Bool
  hidden : Option Bool
  selected : Option Bool
deriving DecidableEq

/-- A loose edge record as accepted by `setEdges` / produced by
`toObject` for the `edges` array. -/
structure EdgeInput where
  id : Option String
  source : String
  target : String
  sourceHandle : Option String
  targetHandle : Option String
  deletable : Option Bool
  hidden : Option Bool
  selected : Option Bool
  data : Option String
deriving DecidableEq

/-- Default edge options (`state.defaultEdgeOptions`) merged in by the
edge builder for fields the input record leaves absent. -/
structure EdgeDefaults where
  deletable : Option Bool
  hidden : Option Bool
  selected : Option Bool
  data : Option String
deriving DecidableEq

/-- Key of the Connection Lookup Index: node id, optional handle id and
handle role. -/
structure LookupKey where
  nodeId : String
  handleId : Option String
  htype : HandleType
deriving DecidableEq

/-- A handle recorded by the connection gesture
(`connectionStartHandle` and friends). -/
structure ConnectingHandle where
  nodeId : String
  type : HandleType
  id : Option String
deriving DecidableEq

/-- The viewport transform. -/
structure Viewport where
  x : Int
  y : Int
  zoom : Int
deriving DecidableEq

/-- Error kinds relevant to edge endpoint validation
(`ErrorCode.EDGE_SOURCE_MISSING` etc.). -/
inductive ErrKind where
  | EDGE_SOURCE_MISSING : ErrKind
  | EDGE_TARGET_MISSING : ErrKind
  | EDGE_SOURCE_TARGET_MISSING : ErrKind
deriving DecidableEq

/-- A typed error published on the error channel (`VueFlowError`): the
kind plus the positional contextual arguments the source passes. -/
structure FlowError where
  kind : ErrKind
  eid : Option String
  arg1 : Option String
  arg2 : Option String
deriving DecidableEq

/-- A node change descriptor (the constructors the verified actions
emit: `remove`, `select`, `dimensions`). -/
inductive NodeChange where
  | remove : String → NodeChange
  | select : String → Bool → NodeChange
  | dims : String → Dimensions → NodeChange
deriving DecidableEq

/-- An edge change descriptor.  `remove` carries the id, endpoints and
handles exactly as `createEdgeRemoveChange` does. -/
inductive EdgeChange where
  | remove : String → String → String → Option String → Option String → EdgeChange
  | select : String → Bool → EdgeChange
deriving DecidableEq

/-- An observable event triggered by an action: a batched node-change
hook invocation, a batched edge-change hook invocation, or an error. -/
inductive Event where
  | nodesChange : List NodeChange → Event
  | edgesChange : List EdgeChange → Event
  | error : FlowError → Event
deriving DecidableEq

/-- The Connection Lookup Index, as a finite-support mapping from keys
to the edge ids recorded under them. -/
def ConnectionLookup : Type := LookupKey → List (Option String)

/-- The slice of the store state the verified actions read and write. -/
structure FlowState where
  nodes : List GNode
  edges : List GEdge
  connectionLookup : ConnectionLookup
  initialized : Bool
  multiSelectionActive : Bool
  isValidConnection : Option (EdgeInput → List GEdge → List GNode → Option GNode → Option GNode → Bool)
  defaultEdgeOptions : Option EdgeDefaults
  connectionStartHandle : Option ConnectingHandle
  connectionClickStartHandle : Option ConnectingHandle
  connectionEndHandle : Option ConnectingHandle
  connectionStatus : Option String
  connectionPosition : NumVal × NumVal
  viewport : Viewport

/-- Lookup in a JS `Map` built as `new Map(nodes.map(n => [n.id, n]))`:
later entries overwrite earlier ones, so the last node with the id wins. -/
def mapGetNode (nodes : List GNode) (id : String) : Option GNode :=
  nodes.reverse.find? (fun n => n.id = id)

/-- Lookup in the edges map, last entry with the id wins. -/
def mapGetEdge (edges : List GEdge) (id : String) : Option GEdge :=
  edges.reverse.find? (fun e => e.id = id)

/-- `findNode` restricted to an explicit node list: the falsy-id guard
(`if (!id) return undefined`) followed by the map lookup. -/
def findNodeIn (nodes : List GNode) (id : String) : Option GNode :=
  if id = "" then none else mapGetNode nodes id

/-- The action `findNode`. -/
def findNodeS (s : FlowState) (id : String) : Option GNode :=
  findNodeIn s.nodes id

/-- The action `findEdge`. -/
def findEdgeS (s : FlowState) (id : String) : Option GEdge :=
  if id = "" then none else mapGetEdge s.edges id

/-- `findEdge` applied to a possibly-absent id (JS `undefined` is falsy,
so an absent id short-circuits to `undefined`). -/
def findEdgeO (s : FlowState) : Option String → Option GEdge
  | none => none
  | some i => findEdgeS s i

/-- The deprecated getter `getNode`: the bare map lookup with no
falsy-id guard. -/
def getNodeG (s : FlowState) (id : String) : Option GNode :=
  mapGetNode s.nodes id

/-- The deprecated getter `getEdge`: the bare map lookup with no
falsy-id guard. -/
def getEdgeG (s : FlowState) (id : String) : Option GEdge :=
  mapGetEdge s.edges id

/-- Modelled from the spec: the node builder inside `createGraphNodes`
(its source lives in the repository's `utils`, which is not under
`src/`).  Per section 4.2 it defaults `position` to `{0,0}`, initializes
`dimensions = {0,0}`, `handleBounds = {}`, `initialized = false`, and
merges with any prior entity sharing the id, preserving the internal
layout fields (`computedPosition`, `dimensions`, ...) across a full
re-declaration.  Generated ids for id-less inputs are not exercised by
any claim; inputs here always carry an id. -/
def buildGraphNode (input : NodeInput) (existing : Option GNode) : GNode :=
  { id := input.id
    position := input.position.getD ⟨0, 0⟩
    parentNode := input.parentNode
    type := input.type
    data := input.data
    deletable := input.deletable
    hidden := input.hidden
    selected := input.selected
    computedPosition := match existing with | some n => n.computedPosition | none => ⟨0, 0, 0⟩
    dimensions := match existing with | some n => n.dimensions | none => ⟨0, 0⟩
    handleBounds := match existing with | some n => n.handleBounds | none => ⟨none, none⟩
    initialized := match existing with | some n => n.initialized | none => false
    isParent := match existing with | some n => n.isParent | none => false
    resizing := false
    dragging := false }

/-- Modelled from the spec: `createGraphNodes(nextNodes, currNodes,
findNode, ...)` (missing from `src/`), which runs every input through
the node builder, resolving the prior entity with the same id via
`findNode` over the current collection. -/
def createGraphNodesModel (inputs : List NodeInput) (currNodes : List GNode) : List GNode :=
  inputs.map (fun i => buildGraphNode i (findNodeIn currNodes i.id))

/-- The deterministic edge id derived from the source/target/handle
tuple when the input has none. -/
def getEdgeId (e : EdgeInput) : String :=
  "vueflow__edge-" ++ e.source ++ e.sourceHandle.getD "" ++ "-" ++ e.target ++ e.targetHandle.getD ""

/-- Modelled from the spec: `parseEdge(edge, existingEdge,
defaultEdgeOptions)` (missing from `src/`).  Per sections 3 and 4.2 it
derives a deterministic id from the source/target/handle tuple when no
id is given and merges the input with the existing record sharing the id
and with the default edge options, the input record taking precedence.
The endpoint-existence errors are raised by `setEdges` itself (present
in `src/`), not here. -/
def parseEdgeModel (e : EdgeInput) (existing : Option GEdge) (defaults : Option EdgeDefaults) : GEdge :=
  { id := e.id.getD (getEdgeId e)
    source := e.source
    target := e.target
    sourceHandle := e.sourceHandle
    targetHandle := e.targetHandle
    deletable := e.deletable <|> existing.bind (fun x => x.deletable) <|> defaults.bind (fun d => d.deletable)
    hidden := e.hidden <|> existing.bind (fun x => x.hidden) <|> defaults.bind (fun d => d.hidden)
    selected := e.selected <|> existing.bind (fun x => x.selected) <|> defaults.bind (fun d => d.selected)
    data := e.data <|> existing.bind (fun x => x.data) <|> defaults.bind (fun d => d.data)
    sourceNode := none
    targetNode := none }

/-- The lookup key an edge contributes on its source side. -/
def srcKey (e : EdgeInput) : LookupKey :=
  ⟨e.source, e.sourceHandle, HandleType.source⟩

/-- The lookup key an edge contributes on its target side. -/
def tgtKey (e : EdgeInput) : LookupKey :=
  ⟨e.target, e.targetHandle, HandleType.target⟩

/-- Modelled from the spec: `updateConnectionLookup(index, edges)`
(missing from `src/`), which per section 4.3 rebuilds the mapping from
(nodeId, handleId-or-null, handleType) to the set of edge ids touching
that point by scanning the full edge list it is given. -/
def updateConnectionLookupModel (edges : List EdgeInput) : ConnectionLookup :=
  fun k => edges.filterMap (fun e => if k = srcKey e ∨ k = tgtKey e then some e.id else none)

/-- The `isValidConnection` pre-filter at the top of `setEdges`. -/
def validEdgesOf (s : FlowState) (es : List EdgeInput) : List EdgeInput :=
  match s.isValidConnection with
  | some f => es.filter (fun e => f e s.edges s.nodes (findNodeS s e.source) (findNodeS s e.target))
  | none => es

/-- One step of the reduce inside `setEdges`: resolve both endpoints,
report the matching missing-endpoint error and drop the edge, or parse
and retain it with the cached node references. -/
def setEdgesStep (s : FlowState) (acc : List GEdge × List Event) (edge : EdgeInput) :
    List GEdge × List Event :=
  let sourceNode := findNodeS s edge.source
  let targetNode := findNodeS s edge.target
  let missingSource := sourceNode.isNone
  let missingTarget := targetNode.isNone
  if missingSource && missingTarget then
    (acc.1, acc.2 ++ [Event.error ⟨ErrKind.EDGE_SOURCE_TARGET_MISSING, edge.id, some edge.source, some edge.target⟩])
  else if missingSource then
    (acc.1, acc.2 ++ [Event.error ⟨ErrKind.EDGE_SOURCE_MISSING, edge.id, some edge.source, none⟩])
  else if missingTarget then
    (acc.1, acc.2 ++ [Event.error ⟨ErrKind.EDGE_TARGET_MISSING, edge.id, some edge.target, none⟩])
  else
    (acc.1 ++ [{ parseEdgeModel edge (findEdgeO s edge.id) s.defaultEdgeOptions with
                  sourceNode := sourceNode, targetNode := targetNode }],
     acc.2)

/-- The action `setNodes`: no-op when the store is uninitialized and the
collection is empty, otherwise a full replace through the node builder. -/
def setNodesImpl (s : FlowState) (nodes : List NodeInput) : FlowState × List Event :=
  if !s.initialized && nodes.isEmpty then (s, [])
  else ({ s with nodes := createGraphNodesModel nodes s.nodes }, [])

/-- The action `setEdges`: no-op guard, `isValidConnection` filter,
connection-lookup rebuild from the filtered list, then the validating
reduce that drops edges with unresolvable endpoints and reports them. -/
def setEdgesImpl (s : FlowState) (edges : List EdgeInput) : FlowState × List Event :=
  if !s.initialized && edges.isEmpty then (s, [])
  else
    let validEdges := validEdgesOf s edges
    let lookup := updateConnectionLookupModel validEdges
    let res := validEdges.foldl (setEdgesStep s) ([], [])
    ({ s with edges := res.1, connectionLookup := lookup }, res.2)

/-- An element passed to `setElements`: a node or an edge record. -/
inductive ElementInput where
  | node : NodeInput → ElementInput
  | edge : EdgeInput → ElementInput
deriving DecidableEq

/-- The node side of an element list (`elements.filter(isNode)`). -/
def elementsNodes (els : List ElementInput) : List NodeInput :=
  els.filterMap (fun el => match el with | .node n => some n | .edge _ => none)

/-- The edge side of an element list (`elements.filter(isEdge)`). -/
def elementsEdges (els : List ElementInput) : List EdgeInput :=
  els.filterMap (fun el => match el with | .node _ => none | .edge e => some e)

/-- The action `setElements`: no-op guard, then `setNodes` on the node
part followed by `setEdges` on the edge part. -/
def setElementsImpl (s : FlowState) (els : List ElementInput) : FlowState × List Event :=
  if !s.initialized && els.isEmpty then (s, [])
  else
    let r1 := setNodesImpl s (elementsNodes els)
    let r2 := setEdgesImpl r1.1 (elementsEdges els)
    (r2.1, r1.2 ++ r2.2)

/-- The action `startConnection`: record the start handle in the
click-specific or drag-specific field, clear the candidate end handle
and status, and take the position when one is supplied. -/
def startConnectionImpl (s : FlowState) (startHandle : ConnectingHandle)
    (position : Option (NumVal × NumVal)) (isClick : Bool) : FlowState :=
  let s1 :=
    if isClick then { s with connectionClickStartHandle := some startHandle }
    else { s with connectionStartHandle := some startHandle }
  let s2 := { s1 with connectionEndHandle := none, connectionStatus := none }
  match position with
  | some p => { s2 with connectionPosition := p }
  | none => s2

/-- The action `updateConnection`: only acts while a drag gesture is in
progress (`connectionStartHandle` set). -/
def updateConnectionImpl (s : FlowState) (position : NumVal × NumVal)
    (result : Option ConnectingHandle) (status : Option String) : FlowState :=
  match s.connectionStartHandle with
  | some _ =>
    { s with connectionPosition := position, connectionEndHandle := result, connectionStatus := status }
  | none => s

/-- The action `endConnection`: always reset the shared gesture fields
(position to `NaN`, end handle and status to null), then clear the
click-specific or the drag-specific start handle depending on `isClick`. -/
def endConnectionImpl (s : FlowState) (isClick : Bool) : FlowState :=
  let s1 := { s with
    connectionPosition := (NumVal.nan, NumVal.nan)
    connectionEndHandle := none
    connectionStatus := none }
  if isClick then { s1 with connectionClickStartHandle := none }
  else { s1 with connectionStartHandle := none }

/-- Modelled from the spec: `createSelectionChange(id, selected)` for a
node (missing from `src/`), producing a select/unselect change. -/
def createSelectionChangeN (id : String) (selected : Bool) : NodeChange :=
  NodeChange.select id selected

/-- Modelled from the spec: `createSelectionChange(id, selected)` for an
edge. -/
def createSelectionChangeE (id : String) (selected : Bool) : EdgeChange :=
  EdgeChange.select id selected

/-- Modelled from the spec: `getSelectionChanges([...nodes, ...edges],
selectedIds)` (missing from `src/`).  Per section 4.5 it computes a full
selection diff across all nodes and edges: an element receives a change
exactly when its current `selected` flag differs from its membership in
the target id set, selecting targets and deselecting everything else.
The changes are returned split into node changes and edge changes. -/
def getSelectionChangesModel (nodes : List GNode) (edges : List GEdge) (selectedIds : List String) :
    List NodeChange × List EdgeChange :=
  (nodes.filterMap (fun n =>
      let willBeSelected := selectedIds.contains n.id
      if n.selected.getD false = willBeSelected then none
      else some (createSelectionChangeN n.id willBeSelected)),
   edges.filterMap (fun e =>
      let willBeSelected := selectedIds.contains e.id
      if e.selected.getD false = willBeSelected then none
      else some (createSelectionChangeE e.id willBeSelected)))

/-- `nodeSelectionHandler(nodes, selected)`: multi-selection mode maps
the targets to selection changes directly; single-selection mode takes
the full diff over all nodes and edges.  Each nonempty change list is
delivered on its hook. -/
def nodeSelectionHandlerImpl (s : FlowState) (ns : List GNode) (selected : Bool) : List Event :=
  let nodeIds := ns.map (fun n => n.id)
  let changed :=
    if s.multiSelectionActive then
      (nodeIds.map (fun nodeId => createSelectionChangeN nodeId selected), ([] : List EdgeChange))
    else getSelectionChangesModel s.nodes s.edges nodeIds
  (if changed.1.isEmpty then [] else [Event.nodesChange changed.1]) ++
    (if changed.2.isEmpty then [] else [Event.edgesChange changed.2])

/-- The action `addSelectedNodes`. -/
def addSelectedNodesImpl (s : FlowState) (ns : List GNode) : List Event :=
  nodeSelectionHandlerImpl s ns true

/-- Modelled from the spec: the Change/Diff Engine `applyChanges` for
node changes (section 4.1, missing from `src/`): `remove` drops the
matching entity, `select` sets the `selected` flag, `dimensions`
overwrites the dimensions and marks the node initialized; changes
referencing a non-existent id are silently skipped. -/
def applyNodeChangesModel (changes : List NodeChange) (nodes : List GNode) : List GNode :=
  changes.foldl
    (fun ns c =>
      match c with
      | NodeChange.remove i => ns.filter (fun n => !(n.id = i : Bool))
      | NodeChange.select i v => ns.map (fun n => if n.id = i then { n with selected := some v } else n)
      | NodeChange.dims i d =>
          ns.map (fun n => if n.id = i then { n with dimensions := d, initialized := true } else n))
    nodes

/-- Modelled from the spec: the Change/Diff Engine `applyChanges` for
edge changes (section 4.1, missing from `src/`). -/
def applyEdgeChangesModel (changes : List EdgeChange) (edges : List GEdge) : List GEdge :=
  changes.foldl
    (fun es c =>
      match c with
      | EdgeChange.remove i _ _ _ _ => es.filter (fun e => !(e.id = i : Bool))
      | EdgeChange.select i v => es.map (fun e => if e.id = i then { e with selected := some v } else e))
    edges

/-- A dimension update passed to `updateNodeDimensions`: the node id,
the measured box and handle geometry supplied by the rendering layer
(`getDimensions` / `getHandleBounds` read the DOM element), and the
`forceUpdate` flag. -/
structure DimUpdate where
  id : String
  measured : Dimensions
  measuredSourceBounds : Option (List Rect4)
  measuredTargetBounds : Option (List Rect4)
  forceUpdate : Bool
deriving DecidableEq

/-- Update the first node satisfying the predicate. -/
def updateFirstBy (p : GNode → Bool) (f : GNode → GNode) : List GNode → List GNode
  | [] => []
  | n :: rest => if p n then f n :: rest else n :: updateFirstBy p f rest

/-- Update the last node satisfying the predicate: in-place mutation of
the object returned by the id map touches the last occurrence of the id. -/
def updateLastBy (p : GNode → Bool) (f : GNode → GNode) (nodes : List GNode) : List GNode :=
  (updateFirstBy p f nodes.reverse).reverse

/-- One step of the reduce inside `updateNodeDimensions`: resolve the
node; update and emit a `dimensions` change only when both measured
extents are nonzero and the size differs from (or `forceUpdate`
overrides) the current one. -/
def applyDimUpdate (acc : List GNode × List NodeChange) (u : DimUpdate) :
    List GNode × List NodeChange :=
  match findNodeIn acc.1 u.id with
  | none => acc
  | some node =>
    let dimensions := u.measured
    let doUpdate :=
      (!(dimensions.width = 0 : Bool)) && (!(dimensions.height = 0 : Bool)) &&
        ((!(node.dimensions.width = dimensions.width : Bool)) ||
          (!(node.dimensions.height = dimensions.height : Bool)) || u.forceUpdate)
    if doUpdate then
      (updateLastBy (fun n => n.id = u.id)
        (fun n =>
          { n with
            handleBounds := ⟨u.measuredSourceBounds, u.measuredTargetBounds⟩
            dimensions := dimensions
            initialized := true })
        acc.1,
       acc.2 ++ [NodeChange.dims node.id dimensions])
    else acc

/-- The action `updateNodeDimensions` (the DOM-measurement acquisition
itself is the external collaborator; the measurements arrive inside the
updates).  The pending fit-view side effect is a viewport concern and
outside this embedding. -/
def updateNodeDimensionsImpl (s : FlowState) (updates : List DimUpdate) : FlowState × List Event :=
  let r := updates.foldl applyDimUpdate (s.nodes, [])
  ({ s with nodes := r.1 }, if r.2.isEmpty then [] else [Event.nodesChange r.2])

/-- Modelled from the spec: the utility `getConnectedEdges(nodes,
edges)` (missing from `src/`): the edges incident on any of the given
nodes, found by scanning the edge collection. -/
def getConnectedEdgesOf (ids : List String) (edges : List GEdge) : List GEdge :=
  edges.filter (fun e => ids.contains e.source || ids.contains e.target)

/-- The `isDef(edge.deletable) ? edge.deletable : true` gate used by the
edge-removal cascade. -/
def edgeDeletableOK (e : GEdge) : Bool :=
  match e.deletable with
  | some b => b
  | none => true

/-- The remove change `createEdgeRemoveChange` builds for an edge. -/
def mkEdgeRemoveChange (e : GEdge) : EdgeChange :=
  EdgeChange.remove e.id e.source e.target e.sourceHandle e.targetHandle

/-- `createEdgeRemovalChanges(nodes)` inside `removeNodes`: the edges
connected to the given nodes whose `deletable` flag is not `false`,
mapped to remove changes. -/
def edgeRemovalChangesOf (edges : List GEdge) (ns : List GNode) : List EdgeChange :=
  ((getConnectedEdgesOf (ns.map (fun n => n.id)) edges).filter edgeDeletableOK).map mkEdgeRemoveChange

/-- `createChildrenRemovalChanges(id)` inside `removeNodes`: recursively
collect remove changes for every node whose `parentNode` chain reaches
the given id, together with (when `rce` is set) remove changes for the
edges connected to each generation of children.  The source recursion
terminates whenever the parent relation is acyclic; the fuel bounds the
recursion depth and is instantiated with the node count, which the
acyclicity hypotheses of the theorems make sufficient. -/
def childrenRemoval (nodes : List GNode) (edges : List GEdge) (rce : Bool) :
    Nat → String → List NodeChange × List EdgeChange
  | 0, _ => ([], [])
  | Nat.succ fuel, id =>
    let children := nodes.filter (fun n => n.parentNode = some id)
    if children.isEmpty then ([], [])
    else
      let base : List NodeChange × List EdgeChange :=
        (children.map (fun n => NodeChange.remove n.id),
         if rce then edgeRemovalChangesOf edges children else [])
      children.foldl
        (fun acc c =>
          (acc.1 ++ (childrenRemoval nodes edges rce fuel c.id).1,
           acc.2 ++ (childrenRemoval nodes edges rce fuel c.id).2))
        base

/-- A target passed to `removeNodes`: a node id or a node reference. -/
inductive NodeRef where
  | byId : String → NodeRef
  | byNode : GNode → NodeRef
deriving DecidableEq

/-- Resolution of a `removeNodes` target (`typeof item === 'string' ?
findNode(item) : item`). -/
def resolveNodeRef (s : FlowState) : NodeRef → Option GNode
  | NodeRef.byId i => findNodeS s i
  | NodeRef.byNode n => some n

/-- One target of the `removeNodes` loop: skip unresolved targets and
targets with `deletable === false`; emit the node's remove change, the
connected-edge removals, and the recursive children removals. -/
def removeNodesStep (s : FlowState) (removeConnectedEdges removeChildren : Bool)
    (acc : List NodeChange × List EdgeChange) (item : NodeRef) :
    List NodeChange × List EdgeChange :=
  match resolveNodeRef s item with
  | none => acc
  | some currNode =>
    if currNode.deletable = some false then acc
    else
      let ncs := acc.1 ++ [NodeChange.remove currNode.id]
      let ecs := acc.2 ++ (if removeConnectedEdges then edgeRemovalChangesOf s.edges [currNode] else [])
      if removeChildren then
        let r := childrenRemoval s.nodes s.edges removeConnectedEdges s.nodes.length currNode.id
        (ncs ++ r.1, ecs ++ r.2)
      else (ncs, ecs)

/-- The action `removeNodes`: collect the batched node and edge remove
changes over all targets, then deliver the nonempty edge batch before
the nonempty node batch. -/
def removeNodesImpl (s : FlowState) (items : List NodeRef)
    (removeConnectedEdges removeChildren : Bool) : List Event :=
  let r := items.foldl (removeNodesStep s removeConnectedEdges removeChildren) ([], [])
  (if r.2.isEmpty then [] else [Event.edgesChange r.2]) ++
    (if r.1.isEmpty then [] else [Event.nodesChange r.1])

/-- The structural snapshot `toObject` produces. -/
structure FlowExport where
  nodes : List NodeInput
  edges : List EdgeInput
  position : Int × Int
  zoom : Int
  viewport : Viewport
deriving DecidableEq

/-- The per-node export projection: the internal-only fields
(`computedPosition`, `handleBounds`, `selected`, `dimensions`,
`isParent`, `resizing`, `dragging`, `initialized`, event bindings) are
omitted; the JSON round trip makes the omitted keys absent. -/
def nodeToExport (n : GNode) : NodeInput :=
  { id := n.id
    position := some n.position
    parentNode := n.parentNode
    type := n.type
    data := n.data
    deletable := n.deletable
    hidden := n.hidden
    selected := none }

/-- The per-edge export projection: `selected`, `sourceNode`,
`targetNode` and event bindings are omitted. -/
def edgeToExport (e : GEdge) : EdgeInput :=
  { id := some e.id
    source := e.source
    target := e.target
    sourceHandle := e.sourceHandle
    targetHandle := e.targetHandle
    deletable := e.deletable
    hidden := e.hidden
    selected := none
    data := e.data }

/-- The action `toObject`. -/
def toObjectImpl (s : FlowState) : FlowExport :=
  { nodes := s.nodes.map nodeToExport
    edges := s.edges.map edgeToExport
    position := (s.viewport.x, s.viewport.y)
    zoom := s.viewport.zoom
    viewport := s.viewport }

/-- The action `fromObject` restricted to the collections: `setNodes` on
the snapshot's nodes then `setEdges` on its edges.  The viewport restore
awaits viewport-helper readiness and is outside this embedding. -/
def fromObjectImpl (s : FlowState) (o : FlowExport) : FlowState × List Event :=
  let r1 := setNodesImpl s o.nodes
  let r2 := setEdgesImpl r1.1 o.edges
  (r2.1, r1.2 ++ r2.2)

/-- A store state with empty collections, used to build concrete test
states. -/
def baseState : FlowState :=
  { nodes := []
    edges := []
    connectionLookup := fun _ => []
    initialized := false
    multiSelectionActive := false
    isValidConnection := none
    defaultEdgeOptions := none
    connectionStartHandle := none
    connectionClickStartHandle := none
    connectionEndHandle := none
    connectionStatus := none
    connectionPosition := (NumVal.num 0, NumVal.num 0)
    viewport := ⟨0, 0, 1⟩ }

/-- A plain graph node with the given id and all optional fields unset. -/
def mkNode (id : String) : GNode :=
  { id := id
    position := ⟨0, 0⟩
    parentNode := none
    type := none
    data := none
    deletable := none
    hidden := none
    selected := none
    computedPosition := ⟨0, 0, 0⟩
    dimensions := ⟨0, 0⟩
    handleBounds := ⟨none, none⟩
    initialized := false
    isParent := false
    resizing := false
    dragging := false }

/-- A plain graph edge with the given id and endpoints. -/
def mkGEdgePlain (id source target : String) : GEdge :=
  { id := id
    source := source
    target := target
    sourceHandle := none
    targetHandle := none
    deletable := none
    hidden := none
    selected := none
    data := none
    sourceNode := none
    targetNode := none }

/-- A plain edge input record with the given id and endpoints. -/
def mkEdgeInput (id source target : String) : EdgeInput :=
  { id := some id
    source := source
    target := target
    sourceHandle := none
    targetHandle := none
    deletable := none
    hidden := none
    selected := none
    data := none }

/-- Claim C8: `endConnection(event, isClick)` always resets the shared
gesture fields — `connectionPosition` to `(NaN, NaN)`,
`connectionEndHandle` and `connectionStatus` to null — regardless of
whether a connection was produced; when `isClick` is true it clears only
`connectionClickStartHandle` and leaves `connectionStartHandle`
unchanged, and when `isClick` is false it clears only
`connectionStartHandle` and leaves `connectionClickStartHandle`
unchanged. -/
theorem endConnection_always_resets (s : FlowState) (isClick : Bool) :
    (endConnectionImpl s isClick).connectionPosition = (NumVal.nan, NumVal.nan) ∧
    (endConnectionImpl s isClick).connectionEndHandle = none ∧
    (endConnectionImpl s isClick).connectionStatus = none ∧
    (endConnectionImpl s isClick).connectionClickStartHandle =
      (if isClick then none else s.connectionClickStartHandle) ∧
    (endConnectionImpl s isClick).connectionStartHandle =
      (if isClick then s.connectionStartHandle else none) := by
  cases isClick <;> simp [endConnectionImpl]

/-- Claim C9: if the store's `initialized` flag is false and the
supplied collection is empty, then each of `setNodes`, `setEdges` and
`setElements` returns without modifying the canonical collections and
without triggering any error or change event. -/
theorem uninitialized_empty_set_noop (s : FlowState) (h : s.initialized = false) :
    setNodesImpl s [] = (s, []) ∧ setEdgesImpl s [] = (s, []) ∧
      setElementsImpl s [] = (s, []) := by
  refine ⟨?_, ?_, ?_⟩ <;> simp [setNodesImpl, setEdgesImpl, setElementsImpl, h]

/-- Witness for C9 at a concrete uninitialized store. -/
theorem uninitialized_empty_set_noop_witness :
    baseState.initialized = false ∧
      (setNodesImpl baseState [] = (baseState, []) ∧ setEdgesImpl baseState [] = (baseState, []) ∧
        setElementsImpl baseState [] = (baseState, [])) :=
  ⟨rfl, uninitialized_empty_set_noop baseState rfl⟩

/-- Claim C5: calling `updateNodeDimensions` with an update whose
measured dimensions equal the node's current dimensions and whose
`forceUpdate` flag is false emits no change event and leaves the store
state — in particular the node's `dimensions`, `handleBounds` and
`initialized` fields — unchanged. -/
theorem updateNodeDimensions_suppression (s : FlowState) (u : DimUpdate) (n : GNode)
    (hfind : findNodeS s u.id = some n) (hdim : u.measured = n.dimensions)
    (hforce : u.forceUpdate = false) :
    updateNodeDimensionsImpl s [u] = (s, []) := by
  have h1 : findNodeIn s.nodes u.id = some n := hfind
  simp [updateNodeDimensionsImpl, applyDimUpdate, h1, hdim, hforce]

/-- Witness for C5: a node measured at its current size with
`forceUpdate` off produces no event and no state change. -/
theorem updateNodeDimensions_suppression_witness :
    findNodeS { baseState with nodes := [{ mkNode "a" with dimensions := ⟨30, 40⟩ }], initialized := true } "a" =
        some { mkNode "a" with dimensions := ⟨30, 40⟩ } ∧
      (⟨"a", ⟨30, 40⟩, none, none, false⟩ : DimUpdate).measured = (⟨30, 40⟩ : Dimensions) ∧
      updateNodeDimensionsImpl
          { baseState with nodes := [{ mkNode "a" with dimensions := ⟨30, 40⟩ }], initialized := true }
          [⟨"a", ⟨30, 40⟩, none, none, false⟩] =
        ({ baseState with nodes := [{ mkNode "a" with dimensions := ⟨30, 40⟩ }], initialized := true }, []) :=
  ⟨by decide, by decide,
    updateNodeDimensions_suppression
      { baseState with nodes := [{ mkNode "a" with dimensions := ⟨30, 40⟩ }], initialized := true }
      ⟨"a", ⟨30, 40⟩, none, none, false⟩ { mkNode "a" with dimensions := ⟨30, 40⟩ } (by decide) rfl rfl⟩

/-- A store whose collections contain an entity with the empty string as
id: the deprecated getters and their replacements disagree there. -/
def c7State : FlowState :=
  { baseState with nodes := [mkNode ""], edges := [mkGEdgePlain "" "" ""], initialized := true }

/-- Counterexample to claim C7 as stated: for the empty id string the
deprecated `getNode` performs the map lookup and finds a node with id
`""`, while `findNode` short-circuits on the falsy id and returns
undefined — likewise for `getEdge` / `findEdge`. -/
theorem getNode_findNode_empty_id_counterexample :
    getNodeG c7State "" ≠ findNodeS c7State "" ∧ getEdgeG c7State "" ≠ findEdgeS c7State "" := by
  exact ⟨by decide, by decide⟩

/-- Claim C7 amended: for every nonempty id the deprecated getters
`getNode` / `getEdge` agree with their replacements `findNode` /
`findEdge`; for the empty string `findNode` / `findEdge` return
undefined while the deprecated getters still perform the lookup. -/
theorem getters_alias_amended (s : FlowState) (id : String) (h : id ≠ "") :
    getNodeG s id = findNodeS s id ∧ getEdgeG s id = findEdgeS s id := by
  constructor <;> simp [getNodeG, findNodeS, findNodeIn, getEdgeG, findEdgeS, h]

/-- Witness for the amended C7 at a concrete nonempty id. -/
theorem getters_alias_amended_witness :
    ("a" : String) ≠ "" ∧
      (getNodeG c7State "a" = findNodeS c7State "a" ∧ getEdgeG c7State "a" = findEdgeS c7State "a") :=
  ⟨by decide, getters_alias_amended c7State "a" (by decide)⟩

/-- Whether `setEdges` drops an input edge: at least one endpoint does
not resolve through `findNode`. -/
def edgeDropped (s : FlowState) (e : EdgeInput) : Bool :=
  (findNodeS s e.source).isNone || (findNodeS s e.target).isNone

/-- The single error `setEdges` reports for a dropped edge: both-missing
beats source-missing beats target-missing, with the positional arguments
the source passes to `VueFlowError`. -/
def missingErrorOf (s : FlowState) (e : EdgeInput) : Event :=
  if (findNodeS s e.source).isNone && (findNodeS s e.target).isNone then
    Event.error ⟨ErrKind.EDGE_SOURCE_TARGET_MISSING, e.id, some e.source, some e.target⟩
  else if (findNodeS s e.source).isNone then
    Event.error ⟨ErrKind.EDGE_SOURCE_MISSING, e.id, some e.source, none⟩
  else Event.error ⟨ErrKind.EDGE_TARGET_MISSING, e.id, some e.target, none⟩

/-- The graph edge `setEdges` retains for an input edge that passed
endpoint validation. -/
def retainedEdgeOf (s : FlowState) (e : EdgeInput) : GEdge :=
  { parseEdgeModel e (findEdgeO s e.id) s.defaultEdgeOptions with
      sourceNode := findNodeS s e.source, targetNode := findNodeS s e.target }

/-- The reduce inside `setEdges` splits into the retained edges of the
non-dropped inputs and one error per dropped input, in input order. -/
theorem setEdges_foldl_split (s : FlowState) (es : List EdgeInput) (acc : List GEdge × List Event) :
    es.foldl (setEdgesStep s) acc =
      (acc.1 ++ (es.filter (fun e => !edgeDropped s e)).map (retainedEdgeOf s),
       acc.2 ++ (es.filter (edgeDropped s)).map (missingErrorOf s)) := by
  induction es generalizing acc with
  | nil => simp
  | cons e es ih =>
    simp only [List.foldl_cons, List.filter_cons]
    rw [ih]
    by_cases hs : (findNodeS s e.source).isNone <;> by_cases ht : (findNodeS s e.target).isNone <;>
      simp [setEdgesStep, edgeDropped, missingErrorOf, retainedEdgeOf, hs, ht]

/-- On the non-guarded path, `setEdges` replaces the edge collection by
the retained edges of the filtered inputs, rebuilds the connection
lookup from the filtered inputs, and reports one error per dropped
input. -/
theorem setEdges_main (s : FlowState) (E : List EdgeInput)
    (hguard : (!s.initialized && E.isEmpty) = false) :
    setEdgesImpl s E =
      ({ s with
          edges := ((validEdgesOf s E).filter (fun e => !edgeDropped s e)).map (retainedEdgeOf s),
          connectionLookup := updateConnectionLookupModel (validEdgesOf s E) },
       ((validEdgesOf s E).filter (edgeDropped s)).map (missingErrorOf s)) := by
  rw [setEdgesImpl, hguard]
  simp [setEdges_foldl_split]

/-- The guard of the set actions is off when the store is initialized or
the collection is nonempty. -/
theorem guard_off_of_init {α : Type} (s : FlowState) (E : List α)
    (h : s.initialized = true ∨ E ≠ []) : (!s.initialized && E.isEmpty) = false := by
  rcases h with h | h
  · simp [h]
  · cases E with
    | nil => exact absurd rfl h
    | cons x xs => simp

/-- A successful `findNodeIn` lookup returns a member of the node list
carrying the looked-up id. -/
theorem findNodeIn_eq_some {nodes : List GNode} {id : String} {n : GNode}
    (h : findNodeIn nodes id = some n) : n ∈ nodes ∧ n.id = id := by
  unfold findNodeIn at h
  split at h
  · exact absurd h (by simp)
  · refine ⟨?_, ?_⟩
    · have := List.mem_of_find?_eq_some h
      exact List.mem_reverse.mp this
    · have := List.find?_some h
      simpa using this

/-- Claim C1: after `setEdges(E)` every retained edge's `source` and
`target` ids resolve to a node of the (unchanged) node collection, and
the triggered events are exactly one error per dropped edge, in order,
whose kind is both-missing / source-missing / target-missing according
to which endpoints failed to resolve. -/
theorem setEdges_endpoint_validation (s : FlowState) (E : List EdgeInput)
    (hinit : s.initialized = true ∨ E ≠ []) :
    (∀ ge ∈ (setEdgesImpl s E).1.edges,
        (∃ n ∈ s.nodes, n.id = ge.source) ∧ ∃ n ∈ s.nodes, n.id = ge.target) ∧
      (setEdgesImpl s E).2 = ((validEdgesOf s E).filter (edgeDropped s)).map (missingErrorOf s) ∧
      (setEdgesImpl s E).1.nodes = s.nodes := by
  rw [setEdges_main s E (guard_off_of_init s E hinit)]
  refine ⟨?_, rfl, rfl⟩
  intro ge hge
  simp only [List.mem_map, List.mem_filter] at hge
  obtain ⟨e, ⟨he, hkeep⟩, rfl⟩ := hge
  simp only [edgeDropped, Bool.not_or, Bool.and_eq_true, Bool.not_eq_true',
    Option.isNone_eq_false_iff] at hkeep
  have hsrc : ∃ n, findNodeS s e.source = some n := Option.isSome_iff_exists.mp hkeep.1
  have htgt : ∃ n, findNodeS s e.target = some n := Option.isSome_iff_exists.mp hkeep.2
  obtain ⟨ns, hns⟩ := hsrc
  obtain ⟨nt, hnt⟩ := htgt
  have h1 := findNodeIn_eq_some hns
  have h2 := findNodeIn_eq_some hnt
  have hsrcEq : (retainedEdgeOf s e).source = e.source := by
    simp [retainedEdgeOf, parseEdgeModel]
  have htgtEq : (retainedEdgeOf s e).target = e.target := by
    simp [retainedEdgeOf, parseEdgeModel]
  rw [hsrcEq, htgtEq]
  exact ⟨⟨ns, h1.1, h1.2⟩, ⟨nt, h2.1, h2.2⟩⟩

/-- A store with one node `a`, used for the `setEdges` witnesses. -/
def c1State : FlowState :=
  { baseState with nodes := [mkNode "a"], initialized := true }

/-- The edge list exercising all four validation outcomes: retained,
source missing, target missing, both missing. -/
def c1Edges : List EdgeInput :=
  [mkEdgeInput "ok" "a" "a", mkEdgeInput "noSrc" "x" "a",
   mkEdgeInput "noTgt" "a" "y", mkEdgeInput "noBoth" "x" "y"]

/-- Witness for C1 on a store with one node and one edge per validation
outcome. -/
theorem setEdges_endpoint_validation_witness :
    (c1State.initialized = true ∨ c1Edges ≠ []) ∧
      ((∀ ge ∈ (setEdgesImpl c1State c1Edges).1.edges,
          (∃ n ∈ c1State.nodes, n.id = ge.source) ∧ ∃ n ∈ c1State.nodes, n.id = ge.target) ∧
        (setEdgesImpl c1State c1Edges).2 =
          ((validEdgesOf c1State c1Edges).filter (edgeDropped c1State)).map (missingErrorOf c1State) ∧
        (setEdgesImpl c1State c1Edges).1.nodes = c1State.nodes) :=
  ⟨Or.inl rfl, setEdges_endpoint_validation c1State c1Edges (Or.inl rfl)⟩

/-- The edge used for the connection-lookup counterexample: its target
does not resolve, so `setEdges` drops it. -/
def c2Edge : EdgeInput := mkEdgeInput "e1" "a" "missing"

/-- Counterexample to claim C2 as stated: `setEdges` rebuilds the
Connection Lookup Index from the filtered input list before the
missing-endpoint validation drops edges, so the dropped edge `e1` is
absent from the retained collection yet its id is still recorded in the
index under the key of its resolvable source endpoint. -/
theorem connectionLookup_dropped_edge_counterexample :
    (setEdgesImpl c1State [c2Edge]).1.edges = [] ∧
      (setEdgesImpl c1State [c2Edge]).1.connectionLookup ⟨"a", none, HandleType.source⟩ =
        [some "e1"] := by
  exact ⟨by decide, by decide⟩

/-- Claim C2 amended: after `setEdges(E)` the Connection Lookup Index is
the rebuild from the input list as filtered by `isValidConnection` —
that is, the list *before* missing-endpoint dropping — and it maps a key
to exactly the ids of those filtered input edges touching the key; ids
of edges dropped for unresolvable endpoints therefore remain in the
index. -/
theorem connectionLookup_rebuild_amended (s : FlowState) (E : List EdgeInput)
    (hinit : s.initialized = true ∨ E ≠ []) :
    (setEdgesImpl s E).1.connectionLookup = updateConnectionLookupModel (validEdgesOf s E) ∧
      ∀ k eid, eid ∈ (setEdgesImpl s E).1.connectionLookup k ↔
        ∃ e ∈ validEdgesOf s E, e.id = eid ∧ (k = srcKey e ∨ k = tgtKey e) := by
  rw [setEdges_main s E (guard_off_of_init s E hinit)]
  refine ⟨rfl, ?_⟩
  intro k eid
  simp only [updateConnectionLookupModel, List.mem_filterMap]
  constructor
  · rintro ⟨e, he, hf⟩
    by_cases hk : k = srcKey e ∨ k = tgtKey e
    · rw [if_pos hk] at hf
      exact ⟨e, he, Option.some.inj hf, hk⟩
    · rw [if_neg hk] at hf
      exact absurd hf (by simp)
  · rintro ⟨e, he, hid, hk⟩
    exact ⟨e, he, by rw [if_pos hk, hid]⟩

/-- Witness for the amended C2 at the concrete dropped-edge store. -/
theorem connectionLookup_rebuild_amended_witness :
    (c1State.initialized = true ∨ [c2Edge] ≠ []) ∧
      ((setEdgesImpl c1State [c2Edge]).1.connectionLookup =
          updateConnectionLookupModel (validEdgesOf c1State [c2Edge]) ∧
        ∀ k eid, eid ∈ (setEdgesImpl c1State [c2Edge]).1.connectionLookup k ↔
          ∃ e ∈ validEdgesOf c1State [c2Edge], e.id = eid ∧ (k = srcKey e ∨ k = tgtKey e)) :=
  ⟨Or.inl rfl, connectionLookup_rebuild_amended c1State [c2Edge] (Or.inl rfl)⟩

/-- The effect of a single selection change on a single node: the map
body of the Diff Engine's `select` case. -/
def selApplyN (c : NodeChange) (n : GNode) : GNode :=
  match c with
  | NodeChange.select i v => if n.id = i then { n with selected := some v } else n
  | _ => n

/-- The effect of a single selection change on a single edge. -/
def selApplyE (c : EdgeChange) (e : GEdge) : GEdge :=
  match c with
  | EdgeChange.select i v => if e.id = i then { e with selected := some v } else e
  | _ => e

/-- The optional change the selection diff generates for a node. -/
def nodeDiffChange (ids : List String) (m : GNode) : Option NodeChange :=
  if m.selected.getD false = ids.contains m.id then none
  else some (NodeChange.select m.id (ids.contains m.id))

/-- The optional change the selection diff generates for an edge. -/
def edgeDiffChange (ids : List String) (m : GEdge) : Option EdgeChange :=
  if m.selected.getD false = ids.contains m.id then none
  else some (EdgeChange.select m.id (ids.contains m.id))

/-- The node side of the selection diff is the filterMap of the per-node
generator. -/
theorem getSelectionChangesModel_fst (nodes : List GNode) (edges : List GEdge) (ids : List String) :
    (getSelectionChangesModel nodes edges ids).1 = nodes.filterMap (nodeDiffChange ids) := rfl

/-- The edge side of the selection diff is the filterMap of the per-edge
generator. -/
theorem getSelectionChangesModel_snd (nodes : List GNode) (edges : List GEdge) (ids : List String) :
    (getSelectionChangesModel nodes edges ids).2 = edges.filterMap (edgeDiffChange ids) := rfl

/-- Applying a list of select-only node changes acts pointwise on the
collection. -/
theorem applyNodeChanges_select_eq_map (cs : List NodeChange)
    (h : ∀ c ∈ cs, ∃ i v, c = NodeChange.select i v) (ns : List GNode) :
    applyNodeChangesModel cs ns = ns.map (fun n => cs.foldl (fun m c => selApplyN c m) n) := by
  induction cs generalizing ns with
  | nil => simp [applyNodeChangesModel]
  | cons c cs ih =>
    obtain ⟨i, v, rfl⟩ := h c (List.mem_cons_self c cs)
    have step : applyNodeChangesModel (NodeChange.select i v :: cs) ns =
        applyNodeChangesModel cs (ns.map (selApplyN (NodeChange.select i v))) := rfl
    rw [step, ih (fun c hc => h c (List.mem_cons_of_mem _ hc)), List.map_map]
    rfl

/-- Applying a list of select-only edge changes acts pointwise on the
collection. -/
theorem applyEdgeChanges_select_eq_map (cs : List EdgeChange)
    (h : ∀ c ∈ cs, ∃ i v, c = EdgeChange.select i v) (es : List GEdge) :
    applyEdgeChangesModel cs es = es.map (fun e => cs.foldl (fun m c => selApplyE c m) e) := by
  induction cs generalizing es with
  | nil => simp [applyEdgeChangesModel]
  | cons c cs ih =>
    obtain ⟨i, v, rfl⟩ := h c (List.mem_cons_self c cs)
    have step : applyEdgeChangesModel (EdgeChange.select i v :: cs) es =
        applyEdgeChangesModel cs (es.map (selApplyE (EdgeChange.select i v))) := rfl
    rw [step, ih (fun c hc => h c (List.mem_cons_of_mem _ hc)), List.map_map]
    rfl

/-- Setting a node's `selected` field to its current value is the
identity. -/
theorem gnode_with_selected_self (n : GNode) (v : Option Bool) (h : n.selected = v) :
    { n with selected := v } = n := by
  cases n
  cases h
  rfl

/-- Setting an edge's `selected` field to its current value is the
identity. -/
theorem gedge_with_selected_self (e : GEdge) (v : Option Bool) (h : e.selected = v) :
    { e with selected := v } = e := by
  cases e
  cases h
  rfl

/-- A node matched by no selection change is untouched by the fold. -/
theorem selFoldN_id (cs : List NodeChange) (n : GNode)
    (h : ∀ i v, NodeChange.select i v ∈ cs → n.id ≠ i) :
    cs.foldl (fun m c => selApplyN c m) n = n := by
  induction cs with
  | nil => rfl
  | cons c cs ih =>
    rw [List.foldl_cons]
    have hn : selApplyN c n = n := by
      cases c with
      | select i v =>
        have := h i v (List.mem_cons_self _ _)
        simp [selApplyN, this]
      | remove i => rfl
      | dims i d => rfl
    rw [hn]
    exact ih (fun i v hm => h i v (List.mem_cons_of_mem _ hm))

/-- A node whose `selected` flag already holds the uniform value of all
changes matching its id is untouched by the fold. -/
theorem selFoldN_keep (cs : List NodeChange) (n : GNode) (w : Bool)
    (hval : ∀ i v, NodeChange.select i v ∈ cs → i = n.id → v = w)
    (hsel : n.selected = some w) :
    cs.foldl (fun m c => selApplyN c m) n = n := by
  induction cs with
  | nil => rfl
  | cons c cs ih =>
    rw [List.foldl_cons]
    have hn : selApplyN c n = n := by
      cases c with
      | select i v =>
        by_cases hi : n.id = i
        · have hv : v = w := hval i v (List.mem_cons_self _ _) hi.symm
          simp only [selApplyN]
          rw [if_pos hi, hv]
          exact gnode_with_selected_self n (some w) hsel
        · simp [selApplyN, hi]
      | remove i => rfl
      | dims i d => rfl
    rw [hn]
    exact ih (fun i v hm hi => hval i v (List.mem_cons_of_mem _ hm) hi)

/-- A node matched by at least one change, all matches carrying the same
value, ends with exactly that `selected` value. -/
theorem selFoldN_set (cs : List NodeChange) (n : GNode) (w : Bool)
    (hval : ∀ i v, NodeChange.select i v ∈ cs → i = n.id → v = w)
    (hex : NodeChange.select n.id w ∈ cs) :
    cs.foldl (fun m c => selApplyN c m) n = { n with selected := some w } := by
  induction cs with
  | nil => cases hex
  | cons c cs ih =>
    rw [List.foldl_cons]
    cases c with
    | select i v =>
      by_cases hi : n.id = i
      · have hv : v = w := hval i v (List.mem_cons_self _ _) hi.symm
        have hstep : selApplyN (NodeChange.select i v) n = { n with selected := some w } := by
          simp only [selApplyN]
          rw [if_pos hi, hv]
        rw [hstep]
        exact selFoldN_keep cs { n with selected := some w } w
          (fun i v hm hi => hval i v (List.mem_cons_of_mem _ hm) hi) rfl
      · have hstep : selApplyN (NodeChange.select i v) n = n := by simp [selApplyN, hi]
        rw [hstep]
        have hex' : NodeChange.select n.id w ∈ cs := by
          rcases List.mem_cons.mp hex with h | h
          · injection h with h1 h2
            exact absurd h1 hi
          · exact h
        exact ih (fun i v hm hi => hval i v (List.mem_cons_of_mem _ hm) hi) hex'
    | remove i =>
      have hex' : NodeChange.select n.id w ∈ cs := by
        rcases List.mem_cons.mp hex with h | h
        · cases h
        · exact h
      exact ih (fun i v hm hi => hval i v (List.mem_cons_of_mem _ hm) hi) hex'
    | dims i d =>
      have hex' : NodeChange.select n.id w ∈ cs := by
        rcases List.mem_cons.mp hex with h | h
        · cases h
        · exact h
      exact ih (fun i v hm hi => hval i v (List.mem_cons_of_mem _ hm) hi) hex'

/-- An edge matched by no selection change is untouched by the fold. -/
theorem selFoldE_id (cs : List EdgeChange) (e : GEdge)
    (h : ∀ i v, EdgeChange.select i v ∈ cs → e.id ≠ i) :
    cs.foldl (fun m c => selApplyE c m) e = e := by
  induction cs with
  | nil => rfl
  | cons c cs ih =>
    rw [List.foldl_cons]
    have hn : selApplyE c e = e := by
      cases c with
      | select i v =>
        have := h i v (List.mem_cons_self _ _)
        simp [selApplyE, this]
      | remove i a b x y => rfl
    rw [hn]
    exact ih (fun i v hm => h i v (List.mem_cons_of_mem _ hm))

/-- An edge whose `selected` flag already holds the uniform value of all
changes matching its id is untouched by the fold. -/
theorem selFoldE_keep (cs : List EdgeChange) (e : GEdge) (w : Bool)
    (hval : ∀ i v, EdgeChange.select i v ∈ cs → i = e.id → v = w)
    (hsel : e.selected = some w) :
    cs.foldl (fun m c => selApplyE c m) e = e := by
  induction cs with
  | nil => rfl
  | cons c cs ih =>
    rw [List.foldl_cons]
    have hn : selApplyE c e = e := by
      cases c with
      | select i v =>
        by_cases hi : e.id = i
        · have hv : v = w := hval i v (List.mem_cons_self _ _) hi.symm
          simp only [selApplyE]
          rw [if_pos hi, hv]
          exact gedge_with_selected_self e (some w) hsel
        · simp [selApplyE, hi]
      | remove i a b x y => rfl
    rw [hn]
    exact ih (fun i v hm hi => hval i v (List.mem_cons_of_mem _ hm) hi)

/-- An edge matched by at least one change, all matches carrying the
same value, ends with exactly that `selected` value. -/
theorem selFoldE_set (cs : List EdgeChange) (e : GEdge) (w : Bool)
    (hval : ∀ i v, EdgeChange.select i v ∈ cs → i = e.id → v = w)
    (hex : EdgeChange.select e.id w ∈ cs) :
    cs.foldl (fun m c => selApplyE c m) e = { e with selected := some w } := by
  induction cs with
  | nil => cases hex
  | cons c cs ih =>
    rw [List.foldl_cons]
    cases c with
    | select i v =>
      by_cases hi : e.id = i
      · have hv : v = w := hval i v (List.mem_cons_self _ _) hi.symm
        have hstep : selApplyE (EdgeChange.select i v) e = { e with selected := some w } := by
          simp only [selApplyE]
          rw [if_pos hi, hv]
        rw [hstep]
        exact selFoldE_keep cs { e with selected := some w } w
          (fun i v hm hi => hval i v (List.mem_cons_of_mem _ hm) hi) rfl
      · have hstep : selApplyE (EdgeChange.select i v) e = e := by simp [selApplyE, hi]
        rw [hstep]
        have hex' : EdgeChange.select e.id w ∈ cs := by
          rcases List.mem_cons.mp hex with h | h
          · injection h with h1 h2
            exact absurd h1 hi
          · exact h
        exact ih (fun i v hm hi => hval i v (List.mem_cons_of_mem _ hm) hi) hex'
    | remove i a b x y =>
      have hex' : EdgeChange.select e.id w ∈ cs := by
        rcases List.mem_cons.mp hex with h | h
        · cases h
        · exact h
      exact ih (fun i v hm hi => hval i v (List.mem_cons_of_mem _ hm) hi) hex'

/-- The per-node post-state of applying the single-selection diff: the
`selected` flag ends up equal to membership in the target id set, nodes
already in the desired state being untouched. -/
def selectionDiffApplied (ids : List String) (n : GNode) : GNode :=
  if n.selected.getD false = ids.contains n.id then n
  else { n with selected := some (ids.contains n.id) }

/-- The per-edge post-state of applying the single-selection diff. -/
def selectionDiffAppliedE (ids : List String) (e : GEdge) : GEdge :=
  if e.selected.getD false = ids.contains e.id then e
  else { e with selected := some (ids.contains e.id) }

/-- The per-node post-state of a multi-selection `addSelectedNodes`:
targets are selected, everything else is untouched. -/
def multiSelectApplied (ids : List String) (n : GNode) : GNode :=
  if ids.contains n.id then { n with selected := some true } else n

/-- Every change the node-side selection diff generates is a select
change. -/
theorem diffN_all_select (nodes : List GNode) (ids : List String) :
    ∀ c ∈ nodes.filterMap (nodeDiffChange ids), ∃ i v, c = NodeChange.select i v := by
  intro c hc
  obtain ⟨m, _, heq⟩ := List.mem_filterMap.mp hc
  by_cases hcm : m.selected.getD false = ids.contains m.id
  · simp only [nodeDiffChange, if_pos hcm] at heq
    cases heq
  · simp only [nodeDiffChange, if_neg hcm] at heq
    exact ⟨m.id, ids.contains m.id, (Option.some.inj heq).symm⟩

/-- Every change the edge-side selection diff generates is a select
change. -/
theorem diffE_all_select (edges : List GEdge) (ids : List String) :
    ∀ c ∈ edges.filterMap (edgeDiffChange ids), ∃ i v, c = EdgeChange.select i v := by
  intro c hc
  obtain ⟨m, _, heq⟩ := List.mem_filterMap.mp hc
  by_cases hcm : m.selected.getD false = ids.contains m.id
  · simp only [edgeDiffChange, if_pos hcm] at heq
    cases heq
  · simp only [edgeDiffChange, if_neg hcm] at heq
    exact ⟨m.id, ids.contains m.id, (Option.some.inj heq).symm⟩

/-- All node-diff changes matching a given id carry the membership value
of that id. -/
theorem diffN_uniform (nodes : List GNode) (ids : List String) (nid : String) :
    ∀ i v, NodeChange.select i v ∈ nodes.filterMap (nodeDiffChange ids) → i = nid →
      v = ids.contains nid := by
  intro i v hm hi
  obtain ⟨m, _, heq⟩ := List.mem_filterMap.mp hm
  by_cases hcm : m.selected.getD false = ids.contains m.id
  · simp only [nodeDiffChange, if_pos hcm] at heq
    cases heq
  · simp only [nodeDiffChange, if_neg hcm] at heq
    have h12 := Option.some.inj heq
    injection h12 with h1 h2
    rw [← h2, h1, hi]

/-- All edge-diff changes matching a given id carry the membership value
of that id. -/
theorem diffE_uniform (edges : List GEdge) (ids : List String) (eid : String) :
    ∀ i v, EdgeChange.select i v ∈ edges.filterMap (edgeDiffChange ids) → i = eid →
      v = ids.contains eid := by
  intro i v hm hi
  obtain ⟨m, _, heq⟩ := List.mem_filterMap.mp hm
  by_cases hcm : m.selected.getD false = ids.contains m.id
  · simp only [edgeDiffChange, if_pos hcm] at heq
    cases heq
  · simp only [edgeDiffChange, if_neg hcm] at heq
    have h12 := Option.some.inj heq
    injection h12 with h1 h2
    rw [← h2, h1, hi]

/-- Pointwise effect of folding the node-side selection diff over a
member of the node collection with unique ids. -/
theorem selFold_diffN (nodes : List GNode) (ids : List String)
    (hn : (nodes.map (fun n => n.id)).Nodup) (n : GNode) (hmem : n ∈ nodes) :
    (nodes.filterMap (nodeDiffChange ids)).foldl (fun m c => selApplyN c m) n =
      selectionDiffApplied ids n := by
  by_cases hc : n.selected.getD false = ids.contains n.id
  · simp only [selectionDiffApplied, if_pos hc]
    apply selFoldN_id
    intro i v hm hni
    obtain ⟨m, hm', heq⟩ := List.mem_filterMap.mp hm
    by_cases hcm : m.selected.getD false = ids.contains m.id
    · simp only [nodeDiffChange, if_pos hcm] at heq
      cases heq
    · simp only [nodeDiffChange, if_neg hcm] at heq
      have h12 := Option.some.inj heq
      injection h12 with h1 h2
      have hmn : m = n := List.inj_on_of_nodup_map hn hm' hmem (by rw [h1, ← hni])
      rw [hmn] at hcm
      exact hcm hc
  · simp only [selectionDiffApplied, if_neg hc]
    apply selFoldN_set
    · exact fun i v hm hi => diffN_uniform nodes ids n.id i v hm hi
    · exact List.mem_filterMap.mpr ⟨n, hmem, by simp only [nodeDiffChange, if_neg hc]⟩

/-- Pointwise effect of folding the edge-side selection diff over a
member of the edge collection with unique ids. -/
theorem selFold_diffE (edges : List GEdge) (ids : List String)
    (he : (edges.map (fun e => e.id)).Nodup) (e : GEdge) (hmem : e ∈ edges) :
    (edges.filterMap (edgeDiffChange ids)).foldl (fun m c => selApplyE c m) e =
      selectionDiffAppliedE ids e := by
  by_cases hc : e.selected.getD false = ids.contains e.id
  · simp only [selectionDiffAppliedE, if_pos hc]
    apply selFoldE_id
    intro i v hm hni
    obtain ⟨m, hm', heq⟩ := List.mem_filterMap.mp hm
    by_cases hcm : m.selected.getD false = ids.contains m.id
    · simp only [edgeDiffChange, if_pos hcm] at heq
      cases heq
    · simp only [edgeDiffChange, if_neg hcm] at heq
      have h12 := Option.some.inj heq
      injection h12 with h1 h2
      have hmn : m = e := List.inj_on_of_nodup_map he hm' hmem (by rw [h1, ← hni])
      rw [hmn] at hcm
      exact hcm hc
  · simp only [selectionDiffAppliedE, if_neg hc]
    apply selFoldE_set
    · exact fun i v hm hi => diffE_uniform edges ids e.id i v hm hi
    · exact List.mem_filterMap.mpr ⟨e, hmem, by simp only [edgeDiffChange, if_neg hc]⟩

/-- Pointwise effect of folding the multi-selection target changes over
any node: targets get selected, other nodes are untouched. -/
theorem selFold_multiN (ids : List String) (n : GNode) :
    (ids.map (fun i => NodeChange.select i true)).foldl (fun m c => selApplyN c m) n =
      multiSelectApplied ids n := by
  by_cases hc : ids.contains n.id = true
  · simp only [multiSelectApplied, if_pos hc]
    apply selFoldN_set
    · intro i v hm _
      obtain ⟨j, _, heq⟩ := List.mem_map.mp hm
      injection heq with h1 h2
      exact h2.symm
    · exact List.mem_map.mpr ⟨n.id, List.elem_iff.mp hc, rfl⟩
  · simp only [multiSelectApplied, if_neg hc]
    apply selFoldN_id
    intro i v hm hni
    obtain ⟨j, hj, heq⟩ := List.mem_map.mp hm
    injection heq with h1 h2
    exact hc (List.elem_iff.mpr (by rw [hni, ← h1]; exact hj))

/-- A node that is already selected, for the selection counterexample. -/
def c4Node : GNode := { mkNode "a" with selected := some true }

/-- A single-selection-mode store whose only node is already selected. -/
def c4State : FlowState := { baseState with nodes := [c4Node], initialized := true }

/-- Counterexample to claim C4 as stated: selecting an already-selected
target in single-selection mode emits no changes at all — the selection
handler computes a diff, so a target already in the desired state does
not receive a select change. -/
theorem addSelectedNodes_counterexample :
    c4State.multiSelectionActive = false ∧ c4Node ∈ c4State.nodes ∧
      addSelectedNodesImpl c4State [c4Node] = [] := by
  exact ⟨rfl, by decide, by decide⟩

/-- Claim C4 amended: with `multiSelectionActive` false,
`addSelectedNodes` computes a full selection diff across all nodes and
edges: an element receives a select/unselect change exactly when its
current `selected` flag differs from its membership in the target id
set, and applying the emitted changes leaves exactly the target set
selected (elements already in the desired state are untouched).  With
`multiSelectionActive` true only the targets receive (select) changes
and every other element is left untouched. -/
theorem addSelectedNodes_amended (s : FlowState) (targets : List GNode)
    (hn : (s.nodes.map (fun n => n.id)).Nodup) (he : (s.edges.map (fun e => e.id)).Nodup) :
    (s.multiSelectionActive = false →
      addSelectedNodesImpl s targets =
          (if ((getSelectionChangesModel s.nodes s.edges (targets.map (fun t => t.id))).1).isEmpty
            then []
            else [Event.nodesChange
              (getSelectionChangesModel s.nodes s.edges (targets.map (fun t => t.id))).1]) ++
            (if ((getSelectionChangesModel s.nodes s.edges (targets.map (fun t => t.id))).2).isEmpty
              then []
              else [Event.edgesChange
                (getSelectionChangesModel s.nodes s.edges (targets.map (fun t => t.id))).2]) ∧
        (∀ n ∈ s.nodes,
          NodeChange.select n.id ((targets.map (fun t => t.id)).contains n.id) ∈
              (getSelectionChangesModel s.nodes s.edges (targets.map (fun t => t.id))).1 ↔
            ¬n.selected.getD false = (targets.map (fun t => t.id)).contains n.id) ∧
        applyNodeChangesModel
            (getSelectionChangesModel s.nodes s.edges (targets.map (fun t => t.id))).1 s.nodes =
          s.nodes.map (selectionDiffApplied (targets.map (fun t => t.id))) ∧
        applyEdgeChangesModel
            (getSelectionChangesModel s.nodes s.edges (targets.map (fun t => t.id))).2 s.edges =
          s.edges.map (selectionDiffAppliedE (targets.map (fun t => t.id)))) ∧
    (s.multiSelectionActive = true →
      addSelectedNodesImpl s targets =
          (if targets.isEmpty then []
           else [Event.nodesChange (targets.map (fun t => NodeChange.select t.id true))]) ∧
        applyNodeChangesModel (targets.map (fun t => NodeChange.select t.id true)) s.nodes =
          s.nodes.map (multiSelectApplied (targets.map (fun t => t.id)))) := by
  constructor
  · intro hm
    refine ⟨?_, ?_, ?_, ?_⟩
    · simp [addSelectedNodesImpl, nodeSelectionHandlerImpl, hm]
    · intro n hmem
      constructor
      · intro hmem2
        rw [getSelectionChangesModel_fst] at hmem2
        obtain ⟨m, hm', heq⟩ := List.mem_filterMap.mp hmem2
        by_cases hcm : m.selected.getD false = (targets.map (fun t => t.id)).contains m.id
        · simp only [nodeDiffChange, if_pos hcm] at heq
          cases heq
        · simp only [nodeDiffChange, if_neg hcm] at heq
          have h12 := Option.some.inj heq
          injection h12 with h1 h2
          have hmn : m = n := List.inj_on_of_nodup_map hn hm' hmem h1
          rw [hmn] at hcm
          exact hcm
      · intro hne
        rw [getSelectionChangesModel_fst]
        exact List.mem_filterMap.mpr ⟨n, hmem, by simp only [nodeDiffChange, if_neg hne]⟩
    · rw [getSelectionChangesModel_fst,
        applyNodeChanges_select_eq_map _ (diffN_all_select s.nodes _) s.nodes]
      exact List.map_congr_left (fun n hmem => selFold_diffN s.nodes _ hn n hmem)
    · rw [getSelectionChangesModel_snd,
        applyEdgeChanges_select_eq_map _ (diffE_all_select s.edges _) s.edges]
      exact List.map_congr_left (fun e hmem => selFold_diffE s.edges _ he e hmem)
  · intro hm
    constructor
    · cases targets with
      | nil => simp [addSelectedNodesImpl, nodeSelectionHandlerImpl, hm]
      | cons t ts => simp [addSelectedNodesImpl, nodeSelectionHandlerImpl, hm, createSelectionChangeN]
    · have hrw : targets.map (fun t => NodeChange.select t.id true) =
          (targets.map (fun t => t.id)).map (fun i => NodeChange.select i true) := by
        rw [List.map_map]
        rfl
      rw [hrw, applyNodeChanges_select_eq_map _ ?hsel s.nodes]
      case hsel =>
        intro c hc
        obtain ⟨j, _, heq⟩ := List.mem_map.mp hc
        exact ⟨j, true, heq.symm⟩
      exact List.map_congr_left (fun n _ => selFold_multiN _ n)

/-- A store for the selection witness: one already-selected node, one
fresh node and one selected edge. -/
def c4wState : FlowState :=
  { baseState with
    nodes := [c4Node, mkNode "b"]
    edges := [{ mkGEdgePlain "e" "a" "b" with selected := some true }]
    initialized := true }

/-- Witness for the amended C4: selecting node `b` in single-selection
mode at a store with unique ids yields the diff post-state. -/
theorem addSelectedNodes_amended_witness :
    (c4wState.nodes.map (fun n => n.id)).Nodup ∧
      (c4wState.edges.map (fun e => e.id)).Nodup ∧
      applyNodeChangesModel
          (getSelectionChangesModel c4wState.nodes c4wState.edges
            ([mkNode "b"].map (fun t => t.id))).1 c4wState.nodes =
        c4wState.nodes.map (selectionDiffApplied ([mkNode "b"].map (fun t => t.id))) :=
  ⟨by decide, by decide,
    ((addSelectedNodes_amended c4wState [mkNode "b"] (by decide) (by decide)).1 rfl).2.2.1⟩

/-- The `parentNode` descendant relation over a node collection: `d` is
reachable from `a` by following `k` parent links upward (equivalently,
`d` is in the `k`-th generation of children below `a`). -/
inductive DescendN (nodes : List GNode) : Nat → String → String → Prop where
  | step : ∀ (n : GNode) (a : String), n ∈ nodes → n.parentNode = some a →
      DescendN nodes 1 a n.id
  | cons : ∀ (n : GNode) (a d : String) (k : Nat), n ∈ nodes → n.parentNode = some a →
      DescendN nodes k n.id d → DescendN nodes (k + 1) a d

/-- `d` is a transitive descendant of `a`: its `parentNode` chain
reaches `a`. -/
def IsDescendant (nodes : List GNode) (a d : String) : Prop :=
  ∃ k, DescendN nodes k a d

/-- A fold that appends two component lists per element is the initial
pair extended by the joined per-element contributions. -/
theorem foldl_append_pair {α β γ : Type} (l : List α) (f : α → List β) (g : α → List γ)
    (i : List β × List γ) :
    l.foldl (fun acc c => (acc.1 ++ f c, acc.2 ++ g c)) i =
      (i.1 ++ (l.map f).flatten, i.2 ++ (l.map g).flatten) := by
  induction l generalizing i with
  | nil => simp
  | cons c l ih => simp [ih, List.append_assoc]

/-- Closed form of one recursion level of the children-removal cascade. -/
theorem childrenRemoval_succ_eq (nodes : List GNode) (edges : List GEdge) (rce : Bool)
    (fuel : Nat) (id : String) :
    childrenRemoval nodes edges rce (fuel + 1) id =
      (if (nodes.filter (fun n => n.parentNode = some id)).isEmpty then ([], [])
       else
        ((nodes.filter (fun n => n.parentNode = some id)).map (fun n => NodeChange.remove n.id) ++
           ((nodes.filter (fun n => n.parentNode = some id)).map
             (fun c => (childrenRemoval nodes edges rce fuel c.id).1)).flatten,
         (if rce then
            edgeRemovalChangesOf edges (nodes.filter (fun n => n.parentNode = some id))
          else []) ++
           ((nodes.filter (fun n => n.parentNode = some id)).map
             (fun c => (childrenRemoval nodes edges rce fuel c.id).2)).flatten)) := by
  show (if (nodes.filter (fun n => n.parentNode = some id)).isEmpty then ([], [])
    else
      (nodes.filter (fun n => n.parentNode = some id)).foldl
        (fun acc c =>
          (acc.1 ++ (childrenRemoval nodes edges rce fuel c.id).1,
           acc.2 ++ (childrenRemoval nodes edges rce fuel c.id).2))
        ((nodes.filter (fun n => n.parentNode = some id)).map (fun n => NodeChange.remove n.id),
         if rce then
           edgeRemovalChangesOf edges (nodes.filter (fun n => n.parentNode = some id))
         else [])) = _
  split
  · rfl
  · rw [foldl_append_pair]

/-- Soundness of the children-removal node changes: every removed id is
a transitive descendant. -/
theorem childrenRemoval_node_sound (nodes : List GNode) (edges : List GEdge) (rce : Bool) :
    ∀ (fuel : Nat) (a id : String),
      NodeChange.remove id ∈ (childrenRemoval nodes edges rce fuel a).1 →
        IsDescendant nodes a id := by
  intro fuel
  induction fuel with
  | zero => intro a id h; cases h
  | succ fuel ih =>
    intro a id h
    rw [childrenRemoval_succ_eq] at h
    split at h
    · cases h
    · rcases List.mem_append.mp h with h | h
      · obtain ⟨n, hn, heq⟩ := List.mem_map.mp h
        obtain ⟨hn1, hn2⟩ := List.mem_filter.mp hn
        injection heq with h1
        rw [← h1]
        exact ⟨1, DescendN.step n a hn1 (by simpa using hn2)⟩
      · rw [List.mem_flatten] at h
        obtain ⟨l, hl, hmem⟩ := h
        obtain ⟨c, hc, rfl⟩ := List.mem_map.mp hl
        obtain ⟨hc1, hc2⟩ := List.mem_filter.mp hc
        obtain ⟨k, hk⟩ := ih c.id id hmem
        exact ⟨k + 1, DescendN.cons c a id k hc1 (by simpa using hc2) hk⟩

/-- Completeness of the children-removal node changes: every transitive
descendant within the fuel bound receives a remove change. -/
theorem childrenRemoval_node_complete (nodes : List GNode) (edges : List GEdge) (rce : Bool)
    {k : Nat} {a d : String} (hD : DescendN nodes k a d) :
    ∀ fuel, k ≤ fuel → NodeChange.remove d ∈ (childrenRemoval nodes edges rce fuel a).1 := by
  induction hD with
  | step n a hn hp =>
    intro fuel hf
    obtain ⟨f, rfl⟩ := Nat.exists_eq_add_of_le hf
    rw [Nat.add_comm 1 f, childrenRemoval_succ_eq]
    have hmem : n ∈ nodes.filter (fun m => m.parentNode = some a) :=
      List.mem_filter.mpr ⟨hn, by simp [hp]⟩
    rw [if_neg (by simp [List.isEmpty_iff]; exact ⟨n, hn, hp⟩)]
    exact List.mem_append.mpr (Or.inl (List.mem_map.mpr ⟨n, hmem, rfl⟩))
  | cons n a d k hn hp hD ih =>
    intro fuel hf
    obtain ⟨f, rfl⟩ := Nat.exists_eq_add_of_le hf
    rw [show k + 1 + f = (k + f) + 1 from by omega, childrenRemoval_succ_eq]
    have hmem : n ∈ nodes.filter (fun m => m.parentNode = some a) :=
      List.mem_filter.mpr ⟨hn, by simp [hp]⟩
    rw [if_neg (by simp [List.isEmpty_iff]; exact ⟨n, hn, hp⟩)]
    refine List.mem_append.mpr (Or.inr ?_)
    rw [List.mem_flatten]
    refine ⟨(childrenRemoval nodes edges rce (k + f) n.id).1, ?_, ih (k + f) (by omega)⟩
    exact List.mem_map.mpr ⟨n, hmem, rfl⟩

/-- Membership characterization of the connected-edge removal changes of
a node group: exactly the deletable-passing edges incident on the group. -/
theorem edgeRemovalChangesOf_mem (edges : List GEdge) (ns : List GNode) (c : EdgeChange) :
    c ∈ edgeRemovalChangesOf edges ns ↔
      ∃ e ∈ edges, edgeDeletableOK e = true ∧ c = mkEdgeRemoveChange e ∧
        ((∃ n ∈ ns, e.source = n.id) ∨ ∃ n ∈ ns, e.target = n.id) := by
  constructor
  · intro hc
    obtain ⟨e, he, rfl⟩ := List.mem_map.mp hc
    obtain ⟨he1, he2⟩ := List.mem_filter.mp he
    obtain ⟨he3, he4⟩ := List.mem_filter.mp he1
    refine ⟨e, he3, he2, rfl, ?_⟩
    rcases Bool.or_eq_true_iff.mp he4 with h | h
    · obtain ⟨n, hn, hid⟩ := List.mem_map.mp (List.elem_iff.mp h)
      exact Or.inl ⟨n, hn, hid.symm⟩
    · obtain ⟨n, hn, hid⟩ := List.mem_map.mp (List.elem_iff.mp h)
      exact Or.inr ⟨n, hn, hid.symm⟩
  · rintro ⟨e, he, hok, rfl, hinc⟩
    apply List.mem_map.mpr
    refine ⟨e, List.mem_filter.mpr ⟨List.mem_filter.mpr ⟨he, ?_⟩, hok⟩, rfl⟩
    apply Bool.or_eq_true_iff.mpr
    rcases hinc with ⟨n, hn, hid⟩ | ⟨n, hn, hid⟩
    · exact Or.inl (List.elem_iff.mpr (List.mem_map.mpr ⟨n, hn, hid.symm⟩))
    · exact Or.inr (List.elem_iff.mpr (List.mem_map.mpr ⟨n, hn, hid.symm⟩))

/-- Soundness of the children-removal edge changes: every emitted change
removes a deletable-passing edge incident on some transitive descendant. -/
theorem childrenRemoval_edge_sound (nodes : List GNode) (edges : List GEdge) (rce : Bool) :
    ∀ (fuel : Nat) (a : String) (c : EdgeChange),
      c ∈ (childrenRemoval nodes edges rce fuel a).2 →
        ∃ e ∈ edges, edgeDeletableOK e = true ∧ c = mkEdgeRemoveChange e ∧
          ∃ d, IsDescendant nodes a d ∧ (e.source = d ∨ e.target = d) := by
  intro fuel
  induction fuel with
  | zero => intro a c h; cases h
  | succ fuel ih =>
    intro a c h
    rw [childrenRemoval_succ_eq] at h
    split at h
    · cases h
    · rcases List.mem_append.mp h with h | h
      · split at h
        · obtain ⟨e, he, hok, rfl, hinc⟩ := (edgeRemovalChangesOf_mem edges _ c).mp h
          refine ⟨e, he, hok, rfl, ?_⟩
          rcases hinc with ⟨n, hn, hid⟩ | ⟨n, hn, hid⟩ <;>
            obtain ⟨hn1, hn2⟩ := List.mem_filter.mp hn
          · exact ⟨n.id, ⟨1, DescendN.step n a hn1 (by simpa using hn2)⟩, Or.inl hid⟩
          · exact ⟨n.id, ⟨1, DescendN.step n a hn1 (by simpa using hn2)⟩, Or.inr hid⟩
        · cases h
      · rw [List.mem_flatten] at h
        obtain ⟨l, hl, hmem⟩ := h
        obtain ⟨ch, hch, rfl⟩ := List.mem_map.mp hl
        obtain ⟨hch1, hch2⟩ := List.mem_filter.mp hch
        obtain ⟨e, he, hok, rfl, d, ⟨k, hk⟩, hinc⟩ := ih ch.id c hmem
        exact ⟨e, he, hok, rfl,
          d, ⟨k + 1, DescendN.cons ch a d k hch1 (by simpa using hch2) hk⟩, hinc⟩

/-- Completeness of the children-removal edge changes: every
deletable-passing edge incident on a descendant within the fuel bound
receives a remove change when connected-edge removal is on. -/
theorem childrenRemoval_edge_complete (nodes : List GNode) (edges : List GEdge)
    {k : Nat} {a d : String} (hD : DescendN nodes k a d) :
    ∀ fuel, k ≤ fuel → ∀ e ∈ edges, edgeDeletableOK e = true →
      (e.source = d ∨ e.target = d) →
        mkEdgeRemoveChange e ∈ (childrenRemoval nodes edges true fuel a).2 := by
  induction hD with
  | step n a hn hp =>
    intro fuel hf e he hok hinc
    obtain ⟨f, rfl⟩ := Nat.exists_eq_add_of_le hf
    rw [Nat.add_comm 1 f, childrenRemoval_succ_eq]
    have hmem : n ∈ nodes.filter (fun m => m.parentNode = some a) :=
      List.mem_filter.mpr ⟨hn, by simp [hp]⟩
    rw [if_neg (by simp [List.isEmpty_iff]; exact ⟨n, hn, hp⟩)]
    refine List.mem_append.mpr (Or.inl ?_)
    rw [if_pos rfl]
    apply (edgeRemovalChangesOf_mem edges _ _).mpr
    refine ⟨e, he, hok, rfl, ?_⟩
    rcases hinc with h | h
    · exact Or.inl ⟨n, hmem, h⟩
    · exact Or.inr ⟨n, hmem, h⟩
  | cons n a d k hn hp hD ih =>
    intro fuel hf e he hok hinc
    obtain ⟨f, rfl⟩ := Nat.exists_eq_add_of_le hf
    rw [show k + 1 + f = (k + f) + 1 from by omega, childrenRemoval_succ_eq]
    have hmem : n ∈ nodes.filter (fun m => m.parentNode = some a) :=
      List.mem_filter.mpr ⟨hn, by simp [hp]⟩
    rw [if_neg (by simp [List.isEmpty_iff]; exact ⟨n, hn, hp⟩)]
    refine List.mem_append.mpr (Or.inr ?_)
    rw [List.mem_flatten]
    refine ⟨(childrenRemoval nodes edges true (k + f) n.id).2, ?_,
      ih (k + f) (by omega) e he hok hinc⟩
    exact List.mem_map.mpr ⟨n, hmem, rfl⟩

/-- Acyclicity certificate for the parent relation: a rank strictly
decreasing from child to parent. -/
def RankOK (nodes : List GNode) (rank : String → Nat) : Prop :=
  ∀ n ∈ nodes, (match n.parentNode with | some p => rank p < rank n.id | none => True)

/-- Along a descendant chain the rank grows at least by the chain
length, and the endpoint is the id of a collection member. -/
theorem DescendN_rank (nodes : List GNode) (rank : String → Nat) (hR : RankOK nodes rank)
    {k : Nat} {a d : String} (hD : DescendN nodes k a d) :
    rank a + k ≤ rank d ∧ ∃ n ∈ nodes, n.id = d := by
  induction hD with
  | step n a hn hp =>
    have h0 := hR n hn
    have h2 : rank a < rank n.id := by rw [hp] at h0; exact h0
    exact ⟨by omega, ⟨n, hn, rfl⟩⟩
  | cons n a d k hn hp hD ih =>
    have h0 := hR n hn
    have h2 : rank a < rank n.id := by rw [hp] at h0; exact h0
    obtain ⟨h3, h4⟩ := ih
    exact ⟨by omega, h4⟩

/-- One `removeNodes` loop iteration on a node reference whose
`deletable` flag passes the gate. -/
theorem removeNodesStep_byNode (s : FlowState) (t : GNode) (rce rch : Bool)
    (acc : List NodeChange × List EdgeChange) (hdel : ¬t.deletable = some false) :
    removeNodesStep s rce rch acc (NodeRef.byNode t) =
      (if rch then
        (acc.1 ++ [NodeChange.remove t.id] ++
          (childrenRemoval s.nodes s.edges rce s.nodes.length t.id).1,
         acc.2 ++ (if rce then edgeRemovalChangesOf s.edges [t] else []) ++
          (childrenRemoval s.nodes s.edges rce s.nodes.length t.id).2)
       else
        (acc.1 ++ [NodeChange.remove t.id],
         acc.2 ++ (if rce then edgeRemovalChangesOf s.edges [t] else []))) := by
  simp only [removeNodesStep, resolveNodeRef]
  rw [if_neg hdel]

/-- An edge whose `deletable` flag is not `false` passes the removal
gate. -/
theorem edgeDeletableOK_of_not_false (e : GEdge) (h : ¬e.deletable = some false) :
    edgeDeletableOK e = true := by
  unfold edgeDeletableOK
  cases hd : e.deletable with
  | none => rfl
  | some b =>
    cases b with
    | false => exact absurd hd h
    | true => rfl

/-- A node with `deletable === false`, on which `removeNodes` is a
silent no-op. -/
def c3BadNode : GNode := { mkNode "a" with deletable := some false }

/-- A store containing only the non-deletable node. -/
def c3BadState : FlowState := { baseState with nodes := [c3BadNode], initialized := true }

/-- Counterexample to claim C3 as stated: calling `removeNodes` on a
target whose `deletable` flag is `false` (with both cascade flags on)
emits no events at all — in particular no remove change for the target. -/
theorem removeNodes_cascade_counterexample :
    c3BadNode ∈ c3BadState.nodes ∧
      removeNodesImpl c3BadState [NodeRef.byNode c3BadNode] true true = [] := by
  exact ⟨by decide, by decide⟩

/-- Claim C3 amended: for a target whose `deletable` flag is not
`false`, on a store whose parent relation is acyclic (certified by a
bounded rank) and whose edges' `deletable` flags are not `false`,
`removeNodes(target, removeConnectedEdges := true, removeChildren :=
true)` emits remove changes for exactly the target and its transitive
descendants, and edge remove changes for exactly the edges incident on
the target or on a descendant; the batched edge removals are delivered
on the edges hook before the batched node removals on the nodes hook. -/
theorem removeNodes_cascade_amended (s : FlowState) (t : GNode) (rank : String → Nat)
    (hrank : RankOK s.nodes rank)
    (hbound : ∀ n ∈ s.nodes, rank n.id < s.nodes.length)
    (htdel : ¬t.deletable = some false)
    (hedel : ∀ e ∈ s.edges, ¬e.deletable = some false) :
    ∃ ncs ecs,
      removeNodesImpl s [NodeRef.byNode t] true true =
        (if ecs.isEmpty then [] else [Event.edgesChange ecs]) ++ [Event.nodesChange ncs] ∧
      (∀ id, NodeChange.remove id ∈ ncs ↔ id = t.id ∨ IsDescendant s.nodes t.id id) ∧
      (∀ e ∈ s.edges,
        (mkEdgeRemoveChange e ∈ ecs ↔
          e.source = t.id ∨ e.target = t.id ∨
            ∃ d, IsDescendant s.nodes t.id d ∧ (e.source = d ∨ e.target = d))) ∧
      (∀ c ∈ ecs, ∃ e ∈ s.edges, c = mkEdgeRemoveChange e) := by
  have hOK : ∀ e ∈ s.edges, edgeDeletableOK e = true :=
    fun e he => edgeDeletableOK_of_not_false e (hedel e he)
  have hklen : ∀ {k d}, DescendN s.nodes k t.id d → k ≤ s.nodes.length := by
    intro k d hD
    obtain ⟨h1, n, hn, rfl⟩ := DescendN_rank s.nodes rank hrank hD
    have := hbound n hn
    omega
  refine ⟨NodeChange.remove t.id :: (childrenRemoval s.nodes s.edges true s.nodes.length t.id).1,
    edgeRemovalChangesOf s.edges [t] ++
      (childrenRemoval s.nodes s.edges true s.nodes.length t.id).2, ?_, ?_, ?_, ?_⟩
  · rw [removeNodesImpl]
    rw [List.foldl_cons, List.foldl_nil, removeNodesStep_byNode s t true true ([], []) htdel]
    simp
  · intro id
    constructor
    · intro h
      rcases List.mem_cons.mp h with h | h
      · injection h with h1
        exact Or.inl h1
      · exact Or.inr (childrenRemoval_node_sound s.nodes s.edges true s.nodes.length t.id id h)
    · rintro (rfl | ⟨k, hD⟩)
      · exact List.mem_cons_self _ _
      · exact List.mem_cons_of_mem _
          (childrenRemoval_node_complete s.nodes s.edges true hD s.nodes.length (hklen hD))
  · intro e he
    constructor
    · intro h
      rcases List.mem_append.mp h with h | h
      · obtain ⟨e', he', hok, heq, hinc⟩ := (edgeRemovalChangesOf_mem s.edges [t] _).mp h
        injection heq with h1 h2 h3 h4 h5
        rcases hinc with ⟨n, hn, hid⟩ | ⟨n, hn, hid⟩ <;>
          rcases List.mem_singleton.mp hn with rfl
        · exact Or.inl (by rw [h2, hid])
        · exact Or.inr (Or.inl (by rw [h3, hid]))
      · obtain ⟨e', he', hok, heq, d, hdesc, hinc⟩ :=
          childrenRemoval_edge_sound s.nodes s.edges true s.nodes.length t.id _ h
        injection heq with h1 h2 h3 h4 h5
        rcases hinc with hid | hid
        · exact Or.inr (Or.inr ⟨d, hdesc, Or.inl (by rw [h2, hid])⟩)
        · exact Or.inr (Or.inr ⟨d, hdesc, Or.inr (by rw [h3, hid])⟩)
    · rintro (h | h | ⟨d, ⟨k, hD⟩, hinc⟩)
      · exact List.mem_append.mpr (Or.inl ((edgeRemovalChangesOf_mem s.edges [t] _).mpr
          ⟨e, he, hOK e he, rfl, Or.inl ⟨t, List.mem_singleton.mpr rfl, h⟩⟩))
      · exact List.mem_append.mpr (Or.inl ((edgeRemovalChangesOf_mem s.edges [t] _).mpr
          ⟨e, he, hOK e he, rfl, Or.inr ⟨t, List.mem_singleton.mpr rfl, h⟩⟩))
      · exact List.mem_append.mpr (Or.inr
          (childrenRemoval_edge_complete s.nodes s.edges hD s.nodes.length (hklen hD)
            e he (hOK e he) hinc))
  · intro c hc
    rcases List.mem_append.mp hc with h | h
    · obtain ⟨e', he', _, heq, _⟩ := (edgeRemovalChangesOf_mem s.edges [t] _).mp h
      exact ⟨e', he', heq⟩
    · obtain ⟨e', he', _, heq, _⟩ := childrenRemoval_edge_sound s.nodes s.edges true _ _ _ h
      exact ⟨e', he', heq⟩

/-- The nodes of the cascade witness store: `b` is a child of `a` and
`c` a child of `b`. -/
def c3wNodes : List GNode :=
  [mkNode "a", { mkNode "b" with parentNode := some "a" }, { mkNode "c" with parentNode := some "b" }]

/-- The cascade witness store: the three-node chain plus one edge
between `a` and `b`. -/
def c3wState : FlowState :=
  { baseState with nodes := c3wNodes, edges := [mkGEdgePlain "e1" "a" "b"], initialized := true }

/-- A depth assignment certifying that the witness store's parent
relation is acyclic. -/
def c3wRank : String → Nat :=
  fun i => if i = "b" then 1 else if i = "c" then 2 else 0

/-- Witness for the amended C3 at the three-node chain store. -/
theorem removeNodes_cascade_amended_witness :
    RankOK c3wState.nodes c3wRank ∧
      (∀ n ∈ c3wState.nodes, c3wRank n.id < c3wState.nodes.length) ∧
      (¬(mkNode "a").deletable = some false) ∧
      (∀ e ∈ c3wState.edges, ¬e.deletable = some false) ∧
      ∃ ncs ecs,
        removeNodesImpl c3wState [NodeRef.byNode (mkNode "a")] true true =
          (if ecs.isEmpty then [] else [Event.edgesChange ecs]) ++ [Event.nodesChange ncs] ∧
        (∀ id, NodeChange.remove id ∈ ncs ↔
          id = (mkNode "a").id ∨ IsDescendant c3wState.nodes (mkNode "a").id id) ∧
        (∀ e ∈ c3wState.edges,
          (mkEdgeRemoveChange e ∈ ecs ↔
            e.source = (mkNode "a").id ∨ e.target = (mkNode "a").id ∨
              ∃ d, IsDescendant c3wState.nodes (mkNode "a").id d ∧
                (e.source = d ∨ e.target = d))) ∧
        (∀ c ∈ ecs, ∃ e ∈ c3wState.edges, c = mkEdgeRemoveChange e) := by
  have hrank : RankOK c3wState.nodes c3wRank := by
    intro n hn
    fin_cases hn
    · exact trivial
    · exact (by decide : c3wRank "a" < c3wRank "b")
    · exact (by decide : c3wRank "b" < c3wRank "c")
  have hbound : ∀ n ∈ c3wState.nodes, c3wRank n.id < c3wState.nodes.length := by decide
  have htdel : ¬(mkNode "a").deletable = some false := by decide
  have hedel : ∀ e ∈ c3wState.edges, ¬e.deletable = some false := by decide
  exact ⟨hrank, hbound, htdel, hedel,
    removeNodes_cascade_amended c3wState (mkNode "a") c3wRank hrank hbound htdel hedel⟩

/-- The entity id an edge change refers to. -/
def edgeChangeId : EdgeChange → String
  | EdgeChange.remove i _ _ _ _ => i
  | EdgeChange.select i _ => i

/-- An edges-hook event delivered by `removeNodes` carries exactly the
batched edge changes of its loop. -/
theorem removeNodes_events_edges (s : FlowState) (items : List NodeRef) (rce rch : Bool)
    (ecs : List EdgeChange)
    (h : Event.edgesChange ecs ∈ removeNodesImpl s items rce rch) :
    ecs = (items.foldl (removeNodesStep s rce rch) ([], [])).2 := by
  simp only [removeNodesImpl] at h
  rcases List.mem_append.mp h with h | h
  · split at h
    · cases h
    · rcases List.mem_singleton.mp h with h
      injection h
  · split at h
    · cases h
    · rcases List.mem_singleton.mp h with h
      injection h

/-- Every edge change batched by `removeNodes` on a single passing
target removes an edge of the collection that passed the `deletable`
gate. -/
theorem removeNodes_single_edges_sound (s : FlowState) (t : GNode) (rch : Bool)
    (htdel : ¬t.deletable = some false) :
    ∀ c ∈ ([NodeRef.byNode t].foldl (removeNodesStep s true rch) ([], [])).2,
      ∃ e ∈ s.edges, edgeDeletableOK e = true ∧ c = mkEdgeRemoveChange e := by
  rw [List.foldl_cons, List.foldl_nil, removeNodesStep_byNode s t true rch ([], []) htdel]
  cases rch with
  | false =>
    intro c hc
    simp only [if_neg Bool.false_ne_true, List.nil_append, if_pos rfl] at hc
    obtain ⟨e, he, hok, heq, _⟩ := (edgeRemovalChangesOf_mem s.edges [t] c).mp hc
    exact ⟨e, he, hok, heq⟩
  | true =>
    intro c hc
    simp only [if_pos rfl, List.nil_append] at hc
    rcases List.mem_append.mp hc with hc | hc
    · obtain ⟨e, he, hok, heq, _⟩ := (edgeRemovalChangesOf_mem s.edges [t] c).mp hc
      exact ⟨e, he, hok, heq⟩
    · obtain ⟨e, he, hok, heq, _⟩ :=
        childrenRemoval_edge_sound s.nodes s.edges true s.nodes.length t.id c hc
      exact ⟨e, he, hok, heq⟩

/-- An edge matched by no change id survives the Diff Engine. -/
theorem applyEdgeChanges_not_removed (cs : List EdgeChange) (es : List GEdge) (e : GEdge)
    (he : e ∈ es) (h : ∀ c ∈ cs, ¬edgeChangeId c = e.id) :
    e ∈ applyEdgeChangesModel cs es := by
  induction cs generalizing es with
  | nil => exact he
  | cons c cs ih =>
    cases c with
    | remove i a b x y =>
      have hne : ¬i = e.id := h _ (List.mem_cons_self _ _)
      have hstep : applyEdgeChangesModel (EdgeChange.remove i a b x y :: cs) es =
          applyEdgeChangesModel cs (es.filter (fun d => !(d.id = i : Bool))) := rfl
      rw [hstep]
      refine ih (es.filter (fun d => !(d.id = i : Bool)))
        (List.mem_filter.mpr ⟨he, ?_⟩) (fun c hc => h c (List.mem_cons_of_mem _ hc))
      simp
      intro hcontra
      exact hne hcontra.symm
    | select i v =>
      have hne : ¬i = e.id := h _ (List.mem_cons_self _ _)
      have hstep : applyEdgeChangesModel (EdgeChange.select i v :: cs) es =
          applyEdgeChangesModel cs
            (es.map (fun d => if d.id = i then { d with selected := some v } else d)) := rfl
      rw [hstep]
      refine ih _ (List.mem_map.mpr ⟨e, he, ?_⟩) (fun c hc => h c (List.mem_cons_of_mem _ hc))
      rw [if_neg (fun hcontra => hne hcontra.symm)]

/-- Claim C10: in the `removeNodes` cascade with
`removeConnectedEdges = true`, an incident edge whose `deletable` flag
is `false` receives no remove change in the delivered edge batch, and it
survives the application of that batch to the edge collection. -/
theorem removeNodes_edge_deletable_gate (s : FlowState) (t : GNode) (e : GEdge) (rch : Bool)
    (he : e ∈ s.edges) (hdel : e.deletable = some false)
    (hnodup : (s.edges.map (fun x => x.id)).Nodup) :
    ∀ ecs, Event.edgesChange ecs ∈ removeNodesImpl s [NodeRef.byNode t] true rch →
      (∀ c ∈ ecs, ¬edgeChangeId c = e.id) ∧ e ∈ applyEdgeChangesModel ecs s.edges := by
  intro ecs hmem
  have hecs := removeNodes_events_edges s [NodeRef.byNode t] true rch ecs hmem
  by_cases hgate : t.deletable = some false
  · have hnil : ([NodeRef.byNode t].foldl (removeNodesStep s true rch) ([], [])).2 = [] := by
      rw [List.foldl_cons, List.foldl_nil]
      simp [removeNodesStep, resolveNodeRef, hgate]
    rw [hnil] at hecs
    subst hecs
    exact ⟨fun c hc => absurd hc (List.not_mem_nil c), he⟩
  · have hsound := removeNodes_single_edges_sound s t rch hgate
    have hnotid : ∀ c ∈ ecs, ¬edgeChangeId c = e.id := by
      intro c hc hid
      obtain ⟨e', he', hok, rfl⟩ := hsound c (hecs ▸ hc)
      have hids : e'.id = e.id := hid
      have hee : e' = e := List.inj_on_of_nodup_map hnodup he' he hids
      rw [hee] at hok
      simp [edgeDeletableOK, hdel] at hok
    exact ⟨hnotid, applyEdgeChanges_not_removed ecs s.edges e he hnotid⟩

/-- A store whose edge `e1` has `deletable === false` while `e2` is
removable, for the gate witness. -/
def c10State : FlowState :=
  { baseState with
    nodes := [mkNode "a", mkNode "b"]
    edges := [{ mkGEdgePlain "e1" "a" "b" with deletable := some false }, mkGEdgePlain "e2" "a" "b"]
    initialized := true }

/-- Witness for C10: removing node `a` of the two-edge store leaves the
non-deletable incident edge `e1` unremoved. -/
theorem removeNodes_edge_deletable_gate_witness :
    ({ mkGEdgePlain "e1" "a" "b" with deletable := some false } : GEdge) ∈ c10State.edges ∧
      ({ mkGEdgePlain "e1" "a" "b" with deletable := some false } : GEdge).deletable = some false ∧
      (c10State.edges.map (fun x => x.id)).Nodup ∧
      ∀ ecs, Event.edgesChange ecs ∈ removeNodesImpl c10State [NodeRef.byNode (mkNode "a")] true false →
        (∀ c ∈ ecs, ¬edgeChangeId c = ({ mkGEdgePlain "e1" "a" "b" with deletable := some false } : GEdge).id) ∧
          ({ mkGEdgePlain "e1" "a" "b" with deletable := some false } : GEdge) ∈
            applyEdgeChangesModel ecs c10State.edges :=
  ⟨by decide, by decide, by decide,
    removeNodes_edge_deletable_gate c10State (mkNode "a")
      { mkGEdgePlain "e1" "a" "b" with deletable := some false } false
      (by decide) (by decide) (by decide)⟩

/-- `find?` by id commutes with an id-preserving map. -/
theorem find?_map_id_pres (g : GNode → GNode) (hg : ∀ n, (g n).id = n.id) (id : String) :
    ∀ l : List GNode,
      (l.map g).find? (fun n => n.id = id) = (l.find? (fun n => n.id = id)).map g := by
  intro l
  induction l with
  | nil => rfl
  | cons n l ih =>
    by_cases h : n.id = id
    · simp [List.find?_cons, hg n, h]
    · simp [List.find?_cons, hg n, h, ih]

/-- The id map lookup commutes with an id-preserving map of the
collection. -/
theorem mapGetNode_map (g : GNode → GNode) (hg : ∀ n, (g n).id = n.id) (l : List GNode)
    (id : String) : mapGetNode (l.map g) id = (mapGetNode l id).map g := by
  unfold mapGetNode
  rw [← List.map_reverse]
  exact find?_map_id_pres g hg id l.reverse

/-- `findNode` semantics commute with an id-preserving map of the
collection. -/
theorem findNodeIn_map (g : GNode → GNode) (hg : ∀ n, (g n).id = n.id) (l : List GNode)
    (id : String) : findNodeIn (l.map g) id = (findNodeIn l id).map g := by
  unfold findNodeIn
  split
  · rfl
  · exact mapGetNode_map g hg l id

/-- A successful edge map lookup returns a member carrying the id. -/
theorem mapGetEdge_eq_some {edges : List GEdge} {id : String} {e : GEdge}
    (h : mapGetEdge edges id = some e) : e ∈ edges ∧ e.id = id := by
  unfold mapGetEdge at h
  refine ⟨List.mem_reverse.mp (List.mem_of_find?_eq_some h), ?_⟩
  have := List.find?_some h
  simpa using this

/-- `setEdges` never changes the node collection. -/
theorem setEdges_preserves_nodes (s : FlowState) (E : List EdgeInput) :
    (setEdgesImpl s E).1.nodes = s.nodes := by
  unfold setEdgesImpl
  split <;> rfl

/-- The retained edge keeps the input record's id (or derives one). -/
theorem retainedEdgeOf_id (s : FlowState) (e : EdgeInput) :
    (retainedEdgeOf s e).id = e.id.getD (getEdgeId e) := rfl

/-- The retained edge keeps the input record's source. -/
theorem retainedEdgeOf_source (s : FlowState) (e : EdgeInput) :
    (retainedEdgeOf s e).source = e.source := rfl

/-- The retained edge keeps the input record's target. -/
theorem retainedEdgeOf_target (s : FlowState) (e : EdgeInput) :
    (retainedEdgeOf s e).target = e.target := rfl

/-- The retained edge's data is the input's, falling back to the
existing record's and then to the default edge options. -/
theorem retainedEdgeOf_data (s : FlowState) (e : EdgeInput) :
    (retainedEdgeOf s e).data =
      (e.data <|> (findEdgeO s e.id).bind (fun x => x.data) <|>
        s.defaultEdgeOptions.bind (fun d => d.data)) := rfl


/-- A store whose `isValidConnection` predicate rejects everything: the
snapshot round trip then loses its edges. -/
def c6State : FlowState :=
  { baseState with
    nodes := [mkNode "a"]
    edges := [mkGEdgePlain "e" "a" "a"]
    isValidConnection := some (fun _ _ _ _ _ => false)
    initialized := true }

/-- Counterexample to claim C6 as stated: `fromObject` routes the
snapshot's edges back through `setEdges`, which re-applies the store's
`isValidConnection` predicate, so a store with a rejecting predicate
does not get its edge collection back from `fromObject(toObject())`. -/
theorem toObject_fromObject_counterexample :
    (fromObjectImpl c6State (toObjectImpl c6State)).1.edges = [] ∧ c6State.edges ≠ [] := by
  exact ⟨by decide, by decide⟩

/-- Claim C6 amended: `toObject` exports the snapshot
`{nodes, edges, position, zoom, viewport}` with the internal-only fields
stripped (structurally absent from the export records), and
`fromObject(toObject())` reproduces node and edge collections with the
same ids, positions and data, provided no `isValidConnection` predicate
and no default edge options are installed and the store satisfies the
documented invariants (unique edge ids, edge endpoints resolvable in the
node set). -/
theorem toObject_fromObject_roundtrip (s : FlowState)
    (hvalid : s.isValidConnection = none)
    (hdefault : s.defaultEdgeOptions = none)
    (hnodupE : (s.edges.map (fun e => e.id)).Nodup)
    (hres : ∀ e ∈ s.edges,
      (findNodeS s e.source).isSome = true ∧ (findNodeS s e.target).isSome = true) :
    (fromObjectImpl s (toObjectImpl s)).1.nodes.map (fun n => (n.id, n.position, n.data)) =
        s.nodes.map (fun n => (n.id, n.position, n.data)) ∧
      (fromObjectImpl s (toObjectImpl s)).1.edges.map (fun e => (e.id, e.source, e.target, e.data)) =
        s.edges.map (fun e => (e.id, e.source, e.target, e.data)) ∧
      (toObjectImpl s).position = (s.viewport.x, s.viewport.y) ∧
      (toObjectImpl s).zoom = s.viewport.zoom ∧
      (toObjectImpl s).viewport = s.viewport := by
  have hnodes_triple : (setNodesImpl s (toObjectImpl s).nodes).1.nodes.map
        (fun n => (n.id, n.position, n.data)) =
      s.nodes.map (fun n => (n.id, n.position, n.data)) := by
    unfold setNodesImpl
    split
    · rfl
    · show (createGraphNodesModel (s.nodes.map nodeToExport) s.nodes).map _ = _
      unfold createGraphNodesModel
      rw [List.map_map, List.map_map]
      exact List.map_congr_left (fun n _ => rfl)
  have hedges1 : (setNodesImpl s (toObjectImpl s).nodes).1.edges = s.edges := by
    unfold setNodesImpl
    split <;> rfl
  have hvalid1 : (setNodesImpl s (toObjectImpl s).nodes).1.isValidConnection = none := by
    unfold setNodesImpl
    split <;> exact hvalid
  have hdefault1 : (setNodesImpl s (toObjectImpl s).nodes).1.defaultEdgeOptions = none := by
    unfold setNodesImpl
    split <;> exact hdefault
  have hfind1 : ∀ id, (findNodeIn (setNodesImpl s (toObjectImpl s).nodes).1.nodes id).isSome =
      (findNodeIn s.nodes id).isSome := by
    unfold setNodesImpl
    split
    · intro id
      rfl
    · intro id
      show (findNodeIn (createGraphNodesModel (s.nodes.map nodeToExport) s.nodes) id).isSome = _
      unfold createGraphNodesModel
      rw [List.map_map]
      rw [findNodeIn_map ((fun i => buildGraphNode i (findNodeIn s.nodes i.id)) ∘ nodeToExport)
        (fun n => rfl) s.nodes id]
      cases findNodeIn s.nodes id <;> rfl
  refine ⟨?_, ?_, rfl, rfl, rfl⟩
  · show (setEdgesImpl (setNodesImpl s (toObjectImpl s).nodes).1
        (toObjectImpl s).edges).1.nodes.map _ = _
    rw [setEdges_preserves_nodes]
    exact hnodes_triple
  · show (setEdgesImpl (setNodesImpl s (toObjectImpl s).nodes).1
        (toObjectImpl s).edges).1.edges.map _ = _
    by_cases hguard : (!(setNodesImpl s (toObjectImpl s).nodes).1.initialized &&
        ((toObjectImpl s).edges).isEmpty) = true
    · have hfire : setEdgesImpl (setNodesImpl s (toObjectImpl s).nodes).1 (toObjectImpl s).edges =
          ((setNodesImpl s (toObjectImpl s).nodes).1, []) := by
        unfold setEdgesImpl
        rw [if_pos hguard]
      rw [hfire, hedges1]
    · rw [setEdges_main _ _ (by simpa using hguard)]
      have hvv : validEdgesOf (setNodesImpl s (toObjectImpl s).nodes).1 (toObjectImpl s).edges =
          (toObjectImpl s).edges := by
        unfold validEdgesOf
        rw [hvalid1]
      rw [hvv]
      have hnodrop : ∀ e ∈ (toObjectImpl s).edges,
          (!edgeDropped (setNodesImpl s (toObjectImpl s).nodes).1 e) = true := by
        intro e he
        obtain ⟨e0, he0, rfl⟩ := List.mem_map.mp he
        have hs1 : (findNodeIn (setNodesImpl s (toObjectImpl s).nodes).1.nodes e0.source).isSome =
            true := by
          rw [hfind1]
          exact (hres e0 he0).1
        have ht1 : (findNodeIn (setNodesImpl s (toObjectImpl s).nodes).1.nodes e0.target).isSome =
            true := by
          rw [hfind1]
          exact (hres e0 he0).2
        have hs2 : (findNodeIn (setNodesImpl s (toObjectImpl s).nodes).1.nodes e0.source).isNone =
            false := by
          cases hh : findNodeIn (setNodesImpl s (toObjectImpl s).nodes).1.nodes e0.source
          · rw [hh] at hs1
            cases hs1
          · rfl
        have ht2 : (findNodeIn (setNodesImpl s (toObjectImpl s).nodes).1.nodes e0.target).isNone =
            false := by
          cases hh : findNodeIn (setNodesImpl s (toObjectImpl s).nodes).1.nodes e0.target
          · rw [hh] at ht1
            cases ht1
          · rfl
        show (!((findNodeIn _ e0.source).isNone || (findNodeIn _ e0.target).isNone)) = true
        rw [hs2, ht2]
        rfl
      rw [List.filter_eq_self.mpr hnodrop]
      rw [show (toObjectImpl s).edges = s.edges.map edgeToExport from rfl]
      rw [List.map_map, List.map_map]
      apply List.map_congr_left
      intro e0 he0
      show ((retainedEdgeOf _ (edgeToExport e0)).id, (retainedEdgeOf _ (edgeToExport e0)).source,
          (retainedEdgeOf _ (edgeToExport e0)).target, (retainedEdgeOf _ (edgeToExport e0)).data) =
        (e0.id, e0.source, e0.target, e0.data)
      have hdt : (retainedEdgeOf (setNodesImpl s (toObjectImpl s).nodes).1
          (edgeToExport e0)).data = e0.data := by
        rw [retainedEdgeOf_data, hdefault1]
        rw [show (edgeToExport e0).data = e0.data from rfl,
          show (edgeToExport e0).id = some e0.id from rfl]
        cases hd : e0.data with
        | some x => rfl
        | none =>
          cases hex : findEdgeO (setNodesImpl s (toObjectImpl s).nodes).1 (some e0.id) with
          | none => rfl
          | some eX =>
            have hfe : findEdgeS (setNodesImpl s (toObjectImpl s).nodes).1 e0.id = some eX := hex
            have hmge : mapGetEdge s.edges e0.id = some eX := by
              unfold findEdgeS at hfe
              rw [hedges1] at hfe
              by_cases hz : e0.id = ""
              · rw [if_pos hz] at hfe
                cases hfe
              · rw [if_neg hz] at hfe
                exact hfe
            obtain ⟨hmem2, hid2⟩ := mapGetEdge_eq_some hmge
            have heq0 : eX = e0 := List.inj_on_of_nodup_map hnodupE hmem2 he0 hid2
            subst heq0
            simp [hd]
      rw [hdt]
      rfl

/-- A store with data-carrying, selected entities for the round-trip
witness. -/
def c6wState : FlowState :=
  { baseState with
    nodes := [{ mkNode "a" with selected := some true, data := some "da" }, mkNode "b"]
    edges := [{ mkGEdgePlain "e1" "a" "b" with data := some "de", selected := some true }]
    initialized := true }

/-- Witness for the amended C6 at the concrete two-node store. -/
theorem toObject_fromObject_roundtrip_witness :
    c6wState.isValidConnection = none ∧
      c6wState.defaultEdgeOptions = none ∧
      (c6wState.edges.map (fun e => e.id)).Nodup ∧
      (∀ e ∈ c6wState.edges,
        (findNodeS c6wState e.source).isSome = true ∧
          (findNodeS c6wState e.target).isSome = true) ∧
      ((fromObjectImpl c6wState (toObjectImpl c6wState)).1.nodes.map
            (fun n => (n.id, n.position, n.data)) =
          c6wState.nodes.map (fun n => (n.id, n.position, n.data)) ∧
        (fromObjectImpl c6wState (toObjectImpl c6wState)).1.edges.map
            (fun e => (e.id, e.source, e.target, e.data)) =
          c6wState.edges.map (fun e => (e.id, e.source, e.target, e.data)) ∧
        (toObjectImpl c6wState).position = (c6wState.viewport.x, c6wState.viewport.y) ∧
        (toObjectImpl c6wState).zoom = c6wState.viewport.zoom ∧
        (toObjectImpl c6wState).viewport = c6wState.viewport) :=
  ⟨rfl, rfl, by decide, by decide,
    toObject_fromObject_roundtrip c6wState rfl rfl (by decide) (by decide)⟩
